import Mathlib

/-!
Shallow embedding of the core of the `askr` interactive prompt tool
(validation engine, choice validator, choice-menu and line-editor state
machines), together with proofs that settle the specification claims.

Conventions of the embedding:
* Rust machine integers (`usize`, `u64`) are modelled as `Nat`; the code under
  scrutiny never relies on overflow.
* Rust `String` is modelled as Lean `String`; character-level operations work
  on `String.data` (the list of characters).  Rust compares strings bytewise,
  which for UTF-8 coincides with the code-point lexicographic order on the
  char list used here.
* `Vec::sort_by` is a stable sort; all stable sorts compute the same function,
  so it is modelled by the stable insertion sort.
* `DashMap` is modelled as an association list where insertion prepends (the
  new binding shadows any older one), lookup takes the first match.
* Methods that mutate through `&self`/`&mut self` (caching, adding a
  validator) return the updated engine value explicitly.
* Wall-clock timing (`validation_time_ms`) is modelled as the constant 0; the
  spec itself quantifies "modulo timing metadata".
-/

namespace Askr

/-- `Priority` from `src/validation/priority.rs`: four severity levels with
discriminants `Critical = 0, High = 1, Medium = 2, Low = 3`. -/
inductive Priority where
  | Critical
  | High
  | Medium
  | Low
deriving DecidableEq

/-- The Rust discriminant (`*self as u8`), the key `Ord for Priority`
compares. -/
def Priority.toNat : Priority → Nat
  | .Critical => 0
  | .High => 1
  | .Medium => 2
  | .Low => 3

instance : IsAntisymm Priority (fun p q => p.toNat ≤ q.toNat) :=
  ⟨fun a b h1 h2 => by
    cases a <;> cases b <;> simp only [Priority.toNat] at h1 h2 <;>
      first
        | rfl
        | exact absurd h1 (by decide)
        | exact absurd h2 (by decide)⟩

/-- `ValidationResult` from `src/validation/result.rs`.  `metadata` is a
key/value map the claims never inspect; it is carried as an association
list for faithfulness of the record shape. -/
structure ValidationResult where
  rule_name : String
  passed : Bool
  priority : Priority
  message : Option String
  metadata : List (String × String)
deriving DecidableEq

/-- `ValidationResult::success`. -/
def ValidationResult.success (rule_name : String) : ValidationResult :=
  { rule_name := rule_name, passed := true, priority := Priority.Medium,
    message := none, metadata := [] }

/-- `ValidationResult::failure`. -/
def ValidationResult.failure (rule_name : String) (priority : Priority)
    (message : String) : ValidationResult :=
  { rule_name := rule_name, passed := false, priority := priority,
    message := some message, metadata := [] }

/-- `PartialValidationResult` from `src/validation/result.rs`. -/
structure PartialValidationResult where
  first_error_pos : Option Nat
  can_continue : Bool
  suggestion : Option String
deriving DecidableEq

/-- `PartialValidationResult::valid`. -/
def PartialValidationResult.valid : PartialValidationResult :=
  { first_error_pos := none, can_continue := true, suggestion := none }

/-- `PartialValidationResult::error_at`. -/
def PartialValidationResult.error_at (pos : Nat) : PartialValidationResult :=
  { first_error_pos := some pos, can_continue := true, suggestion := none }

/-- `ValidationMetadata` from `src/validation/result.rs`. -/
structure ValidationMetadata where
  validation_time_ms : Nat
  rules_checked : Nat
  rules_passed : Nat
  input_length : Nat
  attempts : Option Nat
deriving DecidableEq

/-- `ValidationSummary` from `src/validation/result.rs`. -/
structure ValidationSummary where
  value : String
  valid : Bool
  error : Option String
  metadata : ValidationMetadata
  validation_results : List ValidationResult
deriving DecidableEq

/-- The comparator used by `ValidationSummary::new` and
`ValidationEngine::filter_display_errors`:
`a.priority.cmp(&b.priority).then_with(|| a.rule_name.cmp(&b.rule_name))`,
read as "not greater". -/
def resultOrder (a b : ValidationResult) : Prop :=
  a.priority.toNat < b.priority.toNat ∨
    (a.priority.toNat = b.priority.toNat ∧ a.rule_name.data ≤ b.rule_name.data)

instance : DecidableRel resultOrder := fun a b => by
  unfold resultOrder; infer_instance

instance : IsTotal ValidationResult resultOrder where
  total a b := by
    rcases Nat.lt_trichotomy a.priority.toNat b.priority.toNat with h | h | h
    · exact Or.inl (Or.inl h)
    · rcases le_total a.rule_name.data b.rule_name.data with hs | hs
      · exact Or.inl (Or.inr ⟨h, hs⟩)
      · exact Or.inr (Or.inr ⟨h.symm, hs⟩)
    · exact Or.inr (Or.inl h)

instance : IsTrans ValidationResult resultOrder where
  trans a b c hab hbc := by
    rcases hab with h1 | ⟨h1, s1⟩
    · rcases hbc with h2 | ⟨h2, _⟩
      · exact Or.inl (h1.trans h2)
      · exact Or.inl (h2 ▸ h1)
    · rcases hbc with h2 | ⟨h2, s2⟩
      · exact Or.inl (h1 ▸ h2)
      · exact Or.inr ⟨h1.trans h2, s1.trans s2⟩

/-- `results.sort_by(...)` in `ValidationSummary::new` and
`filter_display_errors`, modelled by the stable insertion sort. -/
def sortResults (results : List ValidationResult) : List ValidationResult :=
  List.insertionSort resultOrder results

/-- Rust `Iterator::min_by_key(|r| r.priority)`: the first element attaining
the minimal key, realised by the same left fold the iterator performs. -/
def min_by_priority (l : List ValidationResult) : Option ValidationResult :=
  l.foldl
    (fun acc r =>
      match acc with
      | none => some r
      | some m => if r.priority.toNat < m.priority.toNat then some r else some m)
    none

/-- `ValidationSummary::new` from `src/validation/result.rs` (lines 105-138):
sort by (priority, rule_name), `valid` = all passed, `error` = message of the
`min_by_key(priority)` failing result (`and_then`, so `none` if that result
has no message), counts into the metadata. -/
def ValidationSummary.new (value : String) (results : List ValidationResult) :
    ValidationSummary :=
  let sorted := sortResults results
  let valid := sorted.all (fun r => r.passed)
  let error : Option String :=
    if valid then none
    else (min_by_priority (sorted.filter (fun r => !r.passed))).bind
      (fun r => r.message)
  { value := value
    valid := valid
    error := error
    metadata :=
      { validation_time_ms := 0
        rules_checked := sorted.length
        rules_passed := sorted.countP (fun r => r.passed)
        input_length := value.utf8ByteSize
        attempts := none }
    validation_results := sorted }

/-- The `Validator` trait from `src/validation/mod.rs`: a full check, a
partial (cursor-aware) check, a priority and a name.  A trait object is
modelled as a record of its methods. -/
structure Validator where
  validate : String → ValidationResult
  partial_validate : String → Nat → PartialValidationResult
  priority : Priority
  name : String

/-- `ValidationEngine` from `src/validation/engine.rs`: an ordered validator
list, an optional input-keyed result cache (`DashMap` as an association
list; fresh bindings are prepended and shadow older ones), and the
`cache_enabled` flag. -/
structure ValidationEngine where
  validators : List Validator
  cache : Option (List (String × List ValidationResult))
  cache_enabled : Bool

/-- `ValidationEngine::new`. -/
def ValidationEngine.new : ValidationEngine :=
  { validators := [], cache := some [], cache_enabled := true }

/-- `ValidationEngine::without_cache`. -/
def ValidationEngine.without_cache : ValidationEngine :=
  { validators := [], cache := none, cache_enabled := false }

/-- First-match lookup in the association list modelling the `DashMap`. -/
def assocGet {α : Type} : List (String × α) → String → Option α
  | [], _ => none
  | (k, v) :: rest, key => if k = key then some v else assocGet rest key

/-- `ValidationEngine::add_validator` (engine.rs lines 29-35): push the
validator, clear the cache if one exists. -/
def ValidationEngine.add_validator (e : ValidationEngine) (v : Validator) :
    ValidationEngine :=
  { e with validators := e.validators ++ [v],
           cache := e.cache.map (fun _ => []) }

/-- `ValidationEngine::get_cached_results` (engine.rs lines 162-168). -/
def ValidationEngine.get_cached_results (e : ValidationEngine)
    (input : String) : Option (List ValidationResult) :=
  if !e.cache_enabled then none
  else
    match e.cache with
    | none => none
    | some m => assocGet m input

/-- `ValidationEngine::cache_results` (engine.rs lines 170-174): a map insert,
modelled by prepending the binding. -/
def ValidationEngine.cache_results (e : ValidationEngine) (input : String)
    (results : List ValidationResult) : ValidationEngine :=
  match e.cache with
  | none => e
  | some m => { e with cache := some ((input, results) :: m) }

/-- `ValidationEngine::validate` (engine.rs lines 37-60): serve the cached
result vector when present, otherwise run every validator in registration
order and cache the vector.  The updated engine is returned alongside the
summary (`&self` mutation through the `DashMap`). -/
def ValidationEngine.validate (e : ValidationEngine) (input : String) :
    ValidationSummary × ValidationEngine :=
  match e.get_cached_results input with
  | some cached => (ValidationSummary.new input cached, e)
  | none =>
    let results := e.validators.map (fun v => v.validate input)
    (ValidationSummary.new input results, e.cache_results input results)

/-- One iteration of the `partial_validate` loop (engine.rs lines 68-88):
fold the validator's report into the accumulated
(first_error_pos, can_continue, suggestions) triple. -/
def partialStep (acc : Option Nat × Bool × List String)
    (r : PartialValidationResult) : Option Nat × Bool × List String :=
  let fep :=
    match r.first_error_pos with
    | some pos =>
      match acc.1 with
      | some existing => some (min existing pos)
      | none => some pos
    | none => acc.1
  let cont := if !r.can_continue then false else acc.2.1
  let sugg :=
    match r.suggestion with
    | some s => acc.2.2 ++ [s]
    | none => acc.2.2
  (fep, cont, sugg)

/-- `ValidationEngine::partial_validate` (engine.rs lines 62-99). -/
def ValidationEngine.partial_validate (e : ValidationEngine) (input : String)
    (cursor_pos : Nat) : PartialValidationResult :=
  let acc := (e.validators.map (fun v => v.partial_validate input cursor_pos)).foldl
    partialStep (none, true, [])
  { first_error_pos := acc.1
    can_continue := acc.2.1
    suggestion :=
      if acc.2.2.isEmpty then none
      else some (String.intercalate "; " acc.2.2) }

/-- The per-failure decision of the display loop (engine.rs lines 130-145):
given the failure's priority and the counters seen so far, whether it is
included, and the updated counters. -/
def displayStep (p : Priority) (ch med low : Nat) : Bool × Nat × Nat × Nat :=
  match p with
  | .Critical => (true, ch + 1, med, low)
  | .High => (true, ch + 1, med, low)
  | .Medium => (decide (med + 1 ≤ 3), ch, med + 1, low)
  | .Low => (decide (ch = 0 ∧ low + 1 ≤ 2), ch, med, low + 1)

/-- The `for error in failed` loop of `filter_display_errors` (engine.rs
lines 130-157): `ch`, `med`, `low` are the counters, `len` the number of
errors pushed so far, `maxE` the optional overall cap checked after each
push. -/
def displayLoop : List ValidationResult → Nat → Nat → Nat → Nat →
    Option Nat → List ValidationResult
  | [], _, _, _, _, _ => []
  | r :: rest, ch, med, low, len, maxE =>
    if (displayStep r.priority ch med low).1 then
      r ::
        (match maxE with
         | some m =>
           if m ≤ len + 1 then []
           else
             displayLoop rest (displayStep r.priority ch med low).2.1
               (displayStep r.priority ch med low).2.2.1
               (displayStep r.priority ch med low).2.2.2 (len + 1) maxE
         | none =>
           displayLoop rest (displayStep r.priority ch med low).2.1
             (displayStep r.priority ch med low).2.2.1
             (displayStep r.priority ch med low).2.2.2 (len + 1) none)
    else
      displayLoop rest (displayStep r.priority ch med low).2.1
        (displayStep r.priority ch med low).2.2.1
        (displayStep r.priority ch med low).2.2.2 len maxE

/-- `ValidationEngine::filter_display_errors` (engine.rs lines 110-160):
sort by (priority, rule_name), keep the failures, then run the tiered
display budget. -/
def filter_display_errors (results : List ValidationResult)
    (max_errors : Option Nat) : List ValidationResult :=
  displayLoop ((sortResults results).filter (fun r => !r.passed)) 0 0 0 0
    max_errors

/-- `ValidationEngine::get_display_errors` (engine.rs lines 101-108): run
`validate`, then filter.  The engine returned by `validate` (its cache
updated) is passed through. -/
def ValidationEngine.get_display_errors (e : ValidationEngine) (input : String)
    (max_errors : Option Nat) : List ValidationResult × ValidationEngine :=
  (filter_display_errors (e.validate input).1.validation_results max_errors,
    (e.validate input).2)

/-- ASCII lowercasing of one character.  Rust's `char::to_lowercase` agrees
with this on ASCII, the alphabet of every choice value in the claims. -/
def charLower (c : Char) : Char :=
  if 65 ≤ c.toNat ∧ c.toNat ≤ 90 then Char.ofNat (c.toNat + 32) else c

/-- Rust `str::to_lowercase`, restricted to ASCII as above. -/
def strLower (s : String) : String :=
  String.mk (s.data.map charLower)

/-- Rust `str::trim`: strip whitespace from both ends. -/
def strTrim (s : String) : String :=
  String.mk (((s.data.dropWhile Char.isWhitespace).reverse.dropWhile
    Char.isWhitespace).reverse)

/-- `ChoiceValidator` from `src/validation/rules/choice.rs`. -/
structure ChoiceValidator where
  choices : List String
  case_sensitive : Bool
  min_choices : Nat
  max_choices : Nat
  priority : Priority
  custom_message : Option String

/-- `ChoiceValidator::new`: case-insensitive, min = max = 1, High priority. -/
def ChoiceValidator.new (choices : List String) : ChoiceValidator :=
  { choices := choices, case_sensitive := false, min_choices := 1,
    max_choices := 1, priority := Priority.High, custom_message := none }

/-- `ChoiceValidator::parse_input` (choice.rs lines 53-63): with
`max_choices == 1` the whole trimmed input is a single candidate choice;
otherwise split on commas, trim each part, drop empties. -/
def ChoiceValidator.parse_input (v : ChoiceValidator) (input : String) :
    List String :=
  if v.max_choices = 1 then [strTrim input]
  else ((input.data.splitOn ',').map (fun part => strTrim (String.mk part))).filter
    (fun s => !decide (s = ""))

/-- `ChoiceValidator::is_valid_choice` (choice.rs lines 66-73). -/
def ChoiceValidator.is_valid_choice (v : ChoiceValidator) (choice : String) :
    Bool :=
  if v.case_sensitive then v.choices.any (fun c => decide (c = choice))
  else v.choices.any (fun c => decide (strLower c = strLower choice))

/-- `ChoiceValidator::get_canonical_choice` (choice.rs lines 76-90). -/
def ChoiceValidator.get_canonical_choice (v : ChoiceValidator)
    (choice : String) : Option String :=
  if v.case_sensitive then
    if v.choices.any (fun c => decide (c = choice)) then some choice else none
  else v.choices.find? (fun c => decide (strLower c = strLower choice))

/-- The duplicate-collection loop of `ChoiceValidator::validate` (choice.rs
lines 117-126): a `HashSet` insert that reports the duplicate canonical
forms in encounter order. -/
def collectDuplicates (v : ChoiceValidator) :
    List String → List String → List String
  | [], _ => []
  | c :: rest, seen =>
    match v.get_canonical_choice c with
    | some canonical =>
      if seen.any (fun s => decide (s = canonical)) then
        canonical :: collectDuplicates v rest seen
      else collectDuplicates v rest (seen ++ [canonical])
    | none => collectDuplicates v rest seen

/-- `ChoiceValidator::validate` (choice.rs lines 94-160): count bounds first,
then duplicates, then per-choice validity. -/
def ChoiceValidator.validate (v : ChoiceValidator) (input : String) :
    ValidationResult :=
  let parsed := v.parse_input input
  if parsed.length < v.min_choices then
    ValidationResult.failure "choice" v.priority
      (v.custom_message.getD
        ("At least " ++ toString v.min_choices ++ " choice(s) required"))
  else if v.max_choices < parsed.length then
    ValidationResult.failure "choice" v.priority
      (v.custom_message.getD
        ("At most " ++ toString v.max_choices ++ " choice(s) allowed"))
  else
    let duplicates := collectDuplicates v parsed []
    if !duplicates.isEmpty then
      ValidationResult.failure "choice" v.priority
        (v.custom_message.getD
          ("Duplicate choices not allowed: " ++
            String.intercalate ", " duplicates))
    else
      let invalid_choices := parsed.filter (fun c => !(v.is_valid_choice c))
      if !invalid_choices.isEmpty then
        ValidationResult.failure "choice" v.priority
          (v.custom_message.getD
            ("Invalid choice(s): " ++ String.intercalate ", " invalid_choices ++
              ". Valid options: " ++ String.intercalate ", " v.choices))
      else ValidationResult.success "choice"

/-- The key events `ChoiceMenu::handle_key_event` distinguishes
(choice_menu.rs lines 115-180); `other` is its catch-all arm. -/
inductive MenuKey where
  | up
  | down
  | enter
  | space
  | ctrlC
  | ctrlD
  | other

/-- `MenuAction` from choice_menu.rs. -/
inductive MenuAction where
  | continueAction
  | submit
  | cancel
deriving DecidableEq

/-- The mutable state of `ChoiceMenu` (choice_menu.rs lines 7-18), without
the terminal/drawing fields. -/
structure ChoiceMenu where
  choices : List String
  allow_multiple : Bool
  min_choices : Nat
  max_choices : Nat
  selected_choices : List Bool
  current_index : Nat
  validation_error : Option String
deriving DecidableEq

/-- `ChoiceMenu::handle_key_event` (choice_menu.rs lines 115-181).  The Down
guard `current_index < choices.len() - 1` uses `Nat` subtraction; it differs
from the Rust `usize` arithmetic only on an empty choice list, where the
Rust code would go out of bounds anyway. -/
def ChoiceMenu.handle_key_event (m : ChoiceMenu) (k : MenuKey) :
    ChoiceMenu × MenuAction :=
  match k with
  | .up =>
    (if 0 < m.current_index then { m with current_index := m.current_index - 1 }
     else m, .continueAction)
  | .down =>
    (if m.current_index < m.choices.length - 1 then
      { m with current_index := m.current_index + 1 }
     else m, .continueAction)
  | .enter =>
    if m.allow_multiple then (m, .submit)
    else
      ({ m with selected_choices :=
          ((List.replicate m.selected_choices.length false).set
            m.current_index true) }, .submit)
  | .space =>
    (if m.allow_multiple then
      { m with selected_choices :=
          (m.selected_choices.set m.current_index
            (!(m.selected_choices.getD m.current_index false))) }
     else m, .continueAction)
  | .ctrlC => (m, .cancel)
  | .ctrlD => (m, .cancel)
  | .other => (m, .continueAction)

/-- The number of selected entries
(`selected_choices.iter().filter(|&&s| s).count()`). -/
def ChoiceMenu.selectedCount (m : ChoiceMenu) : Nat :=
  m.selected_choices.countP (fun b => b)

/-- `ChoiceMenu::validate_selections` (choice_menu.rs lines 310-320). -/
def ChoiceMenu.validate_selections (m : ChoiceMenu) : ChoiceMenu :=
  { m with validation_error :=
      if m.selectedCount < m.min_choices then
        some ("At least " ++ toString m.min_choices ++ " choice(s) required")
      else if m.max_choices < m.selectedCount then
        some ("At most " ++ toString m.max_choices ++ " choice(s) allowed")
      else none }

/-- `ChoiceMenu::can_submit` (choice_menu.rs lines 323-326). -/
def ChoiceMenu.can_submit (m : ChoiceMenu) : Bool :=
  decide (m.min_choices ≤ m.selectedCount ∧ m.selectedCount ≤ m.max_choices)

/-- `ChoiceMenu::get_selected_choices` (choice_menu.rs lines 295-307). -/
def ChoiceMenu.get_selected_choices (m : ChoiceMenu) : List String :=
  ((m.choices.zip m.selected_choices).filter (fun p => p.2)).map (fun p => p.1)

/-- The observable outcome of one iteration of `ChoiceMenu::show`'s input
loop. -/
inductive MenuOutcome where
  | submitted (selected : List String)
  | navigating (menu : ChoiceMenu)
  | cancelled
deriving DecidableEq

/-- One iteration of the input loop of `ChoiceMenu::show` (choice_menu.rs
lines 86-107): dispatch the key, then on `Continue` revalidate and stay, on
`Submit` return the selection only when `can_submit`, otherwise revalidate
(which installs the constraint-violation message) and stay. -/
def ChoiceMenu.stepShow (m : ChoiceMenu) (k : MenuKey) : MenuOutcome :=
  match (m.handle_key_event k).2 with
  | .continueAction =>
    .navigating (m.handle_key_event k).1.validate_selections
  | .submit =>
    if (m.handle_key_event k).1.can_submit then
      .submitted (m.handle_key_event k).1.get_selected_choices
    else .navigating (m.handle_key_event k).1.validate_selections
  | .cancel => .cancelled

/-- The key events `InteractivePrompt::handle_key_event` distinguishes
(interactive.rs lines 149-374).  `char c ctrl` is the generic
`KeyCode::Char` arm with its modifier flag; the dedicated Ctrl chords are
separate constructors matching the earlier match arms; `other` is the
catch-all. -/
inductive EditorKey where
  | enter
  | ctrlC
  | ctrlD
  | ctrlA
  | ctrlE
  | ctrlK
  | ctrlU
  | ctrlW
  | left
  | right
  | home
  | endKey
  | backspace
  | delete
  | char (c : Char) (ctrl : Bool)
  | other

/-- `InputAction` from interactive.rs. -/
inductive InputAction where
  | continueAction
  | submit
  | cancel
deriving DecidableEq

/-- The line editor's mutable buffer state: the input string and the cursor
offset in characters. -/
structure EditorState where
  input : String
  cursor_pos : Nat
deriving DecidableEq

/-- A backwards `while i > 0 && p(chars[i-1]) { i -= 1 }` scan, as in the
Ctrl+W arm. -/
def skipBackWhile (p : Char → Bool) (chars : List Char) : Nat → Nat
  | 0 => 0
  | n + 1 => if p (chars.getD n ' ') then skipBackWhile p chars n else n + 1

/-- `InteractivePrompt::handle_key_event` (interactive.rs lines 149-374),
restricted to its effect on the buffer state and the returned action (the
redraw calls only repaint).  `default_value` is
`config.interaction_config.default_value`. -/
def InteractivePrompt.handle_key_event (default_value : Option String)
    (s : EditorState) (k : EditorKey) : EditorState × InputAction :=
  let chars := s.input.data
  match k with
  | .enter =>
    if s.input = "" then
      match default_value with
      | some d => ({ input := d, cursor_pos := d.data.length }, .submit)
      | none => (s, .submit)
    else (s, .submit)
  | .ctrlC => (s, .cancel)
  | .ctrlD =>
    if s.input = "" then (s, .cancel) else (s, .continueAction)
  | .ctrlA => ({ s with cursor_pos := 0 }, .continueAction)
  | .ctrlE => ({ s with cursor_pos := chars.length }, .continueAction)
  | .ctrlK =>
    (if s.cursor_pos < chars.length then
      { s with input := String.mk (chars.take s.cursor_pos) }
     else s, .continueAction)
  | .ctrlU =>
    (if 0 < s.cursor_pos then
      { input := String.mk (chars.drop s.cursor_pos), cursor_pos := 0 }
     else s, .continueAction)
  | .ctrlW =>
    (if 0 < s.cursor_pos then
      let n1 := skipBackWhile Char.isWhitespace chars s.cursor_pos
      let n2 := skipBackWhile (fun c => !c.isWhitespace) chars n1
      { input := String.mk (chars.take n2 ++ chars.drop s.cursor_pos),
        cursor_pos := n2 }
     else s, .continueAction)
  | .left =>
    (if 0 < s.cursor_pos then { s with cursor_pos := s.cursor_pos - 1 }
     else s, .continueAction)
  | .right =>
    (if s.cursor_pos < chars.length then
      { s with cursor_pos := s.cursor_pos + 1 }
     else s, .continueAction)
  | .home => ({ s with cursor_pos := 0 }, .continueAction)
  | .endKey => ({ s with cursor_pos := chars.length }, .continueAction)
  | .backspace =>
    (if 0 < s.cursor_pos then
      { input := String.mk (chars.eraseIdx (s.cursor_pos - 1)),
        cursor_pos := s.cursor_pos - 1 }
     else s, .continueAction)
  | .delete =>
    (if s.cursor_pos < chars.length then
      { s with input := String.mk (chars.eraseIdx s.cursor_pos) }
     else s, .continueAction)
  | .char c ctrl =>
    if ctrl then (s, .continueAction)
    else
      ({ input := String.mk (chars.insertIdx s.cursor_pos c),
         cursor_pos := s.cursor_pos + 1 }, .continueAction)
  | .other => (s, .continueAction)

/-- A concrete two-entry menu fixture used by the concrete menu theorems:
selection bounds and highlight position are the parameters. -/
def demoMenu (multi : Bool) (minC maxC idx : Nat) : ChoiceMenu :=
  { choices := ["a", "b"], allow_multiple := multi, min_choices := minC,
    max_choices := maxC, selected_choices := [false, false],
    current_index := idx, validation_error := none }

/-- A validator that fails every input at the given priority, used to build
concrete engines for the display-filter theorems. -/
def alwaysFail (nm : String) (p : Priority) : Validator :=
  { validate := fun _ => ValidationResult.failure nm p ("fail " ++ nm),
    partial_validate := fun _ _ => PartialValidationResult.valid,
    priority := p, name := nm }

/-- A cache-free engine whose failures have priorities
Critical×1, Medium×5, Low×5 — the display-filter scenario of the spec. -/
def scenarioEngine : ValidationEngine :=
  { validators :=
      [alwaysFail "c1" Priority.Critical,
       alwaysFail "m1" Priority.Medium, alwaysFail "m2" Priority.Medium,
       alwaysFail "m3" Priority.Medium, alwaysFail "m4" Priority.Medium,
       alwaysFail "m5" Priority.Medium,
       alwaysFail "l1" Priority.Low, alwaysFail "l2" Priority.Low,
       alwaysFail "l3" Priority.Low, alwaysFail "l4" Priority.Low,
       alwaysFail "l5" Priority.Low],
    cache := none, cache_enabled := false }

/-- A failing result that carries no message.  `ValidationResult`'s fields
are public in the source, so such a value is constructible; none of the
repo's own constructors produce it. -/
def noMessageFailure : ValidationResult :=
  { rule_name := "r", passed := false, priority := Priority.Critical,
    message := none, metadata := [] }

/-! ### Helper lemmas -/

theorem assocGet_mem {α : Type} {m : List (String × α)} {key : String} {v : α}
    (h : assocGet m key = some v) : (key, v) ∈ m := by
  induction m with
  | nil => simp [assocGet] at h
  | cons p rest ih =>
    simp only [assocGet] at h
    by_cases hk : p.1 = key
    · rw [if_pos hk] at h
      have hv := Option.some.inj h
      subst hk
      rw [← hv]
      exact List.mem_cons_self _ _
    · rw [if_neg hk] at h
      exact List.mem_cons_of_mem p (ih h)

/-! ### C3: add_validator appends and clears the cache -/

/-- C3: after `add_validator`, validating any input (in particular one that
was cached before the addition) yields the same `validation_results` as a
fresh cache-free engine holding the full updated validator list:
`add_validator` appends the validator and clears the cache, so no stale
cached vector is ever served. -/
theorem add_validator_no_stale_cache (e : ValidationEngine) (v : Validator)
    (input : String) :
    (e.add_validator v).validators = e.validators ++ [v] ∧
    (e.add_validator v).get_cached_results input = none ∧
    ((e.add_validator v).validate input).1.validation_results =
      (({ ValidationEngine.without_cache with
          validators := e.validators ++ [v] } : ValidationEngine).validate
        input).1.validation_results := by
  refine ⟨rfl, ?_, ?_⟩
  · cases hc : e.cache with
    | none =>
      simp [ValidationEngine.add_validator, ValidationEngine.get_cached_results,
        hc]
    | some m =>
      simp [ValidationEngine.add_validator, ValidationEngine.get_cached_results,
        hc, assocGet]
  · have hl : (e.add_validator v).get_cached_results input = none := by
      cases hc : e.cache with
      | none =>
        simp [ValidationEngine.add_validator,
          ValidationEngine.get_cached_results, hc]
      | some m =>
        simp [ValidationEngine.add_validator,
          ValidationEngine.get_cached_results, hc, assocGet]
    have hr : (({ ValidationEngine.without_cache with
        validators := e.validators ++ [v] } : ValidationEngine)).get_cached_results
          input = none := by
      simp [ValidationEngine.without_cache, ValidationEngine.get_cached_results]
    simp only [ValidationEngine.validate, hl, hr]
    rfl

/-! ### C4: validate is deterministic and idempotent -/

/-- C4: two successive `validate` calls with the same input and validator set
return identical `validation_results` (the second call may be served from
the cache; timing metadata aside, the summaries agree). -/
theorem validate_idempotent (e : ValidationEngine) (input : String) :
    (((e.validate input).2.validate input).1).validation_results =
      ((e.validate input).1).validation_results := by
  cases hc : e.get_cached_results input with
  | some cached =>
    simp [ValidationEngine.validate, hc]
  | none =>
    cases hm : e.cache with
    | none =>
      have hcr : e.cache_results input
          (e.validators.map (fun v => v.validate input)) = e := by
        simp [ValidationEngine.cache_results, hm]
      simp [ValidationEngine.validate, hc, hcr]
    | some m =>
      by_cases hen : e.cache_enabled
      · have h2 : (e.cache_results input
            (e.validators.map (fun v => v.validate input))).get_cached_results
              input =
            some (e.validators.map (fun v => v.validate input)) := by
          simp [ValidationEngine.cache_results, hm,
            ValidationEngine.get_cached_results, hen, assocGet]
        simp [ValidationEngine.validate, hc, h2]
      · have h2 : (e.cache_results input
            (e.validators.map (fun v => v.validate input))).get_cached_results
              input = none := by
          simp [ValidationEngine.cache_results, hm,
            ValidationEngine.get_cached_results, hen]
        have h3 : (e.cache_results input
            (e.validators.map (fun v => v.validate input))).validators =
              e.validators := by
          simp [ValidationEngine.cache_results, hm]
        simp [ValidationEngine.validate, hc, h2, h3]

/-! ### C9: Ctrl+D cancels only on an empty buffer, Ctrl+C always -/

/-- C9: in the line editor, Ctrl+D yields `Cancel` exactly when the buffer is
empty and is otherwise ignored (state unchanged, action `Continue`), while
Ctrl+C yields `Cancel` regardless of the buffer. -/
theorem ctrl_d_cancels_only_empty (default_value : Option String)
    (s : EditorState) :
    InteractivePrompt.handle_key_event default_value s EditorKey.ctrlD =
      (s, if s.input = "" then InputAction.cancel
          else InputAction.continueAction) ∧
    InteractivePrompt.handle_key_event default_value s EditorKey.ctrlC =
      (s, InputAction.cancel) := by
  constructor
  · by_cases h : s.input = "" <;>
      simp [InteractivePrompt.handle_key_event, h]
  · rfl

/-! ### C10: the empty engine accepts everything -/

/-- C10: an engine with no validators validates every input to a summary
with `valid = true`, empty `validation_results`, `error = none`, and
`rules_checked = rules_passed = 0`.  The cache hypothesis states that every
cached vector is empty, which holds for every reachable zero-validator
engine (the only vectors ever cached are images of the empty validator
list). -/
theorem empty_engine_accepts (e : ValidationEngine) (input : String)
    (h1 : e.validators = [])
    (h2 : ∀ p ∈ e.cache.getD [], p.2 = ([] : List ValidationResult)) :
    ((e.validate input).1).valid = true ∧
    ((e.validate input).1).validation_results = [] ∧
    ((e.validate input).1).error = none ∧
    ((e.validate input).1).metadata.rules_checked = 0 ∧
    ((e.validate input).1).metadata.rules_passed = 0 := by
  have hsum : (e.validate input).1 = ValidationSummary.new input [] := by
    cases hc : e.get_cached_results input with
    | some cached =>
      have hcc : cached = [] := by
        by_cases hen : e.cache_enabled
        · cases hm : e.cache with
          | none =>
            unfold ValidationEngine.get_cached_results at hc
            simp [hen, hm] at hc
          | some m =>
            unfold ValidationEngine.get_cached_results at hc
            simp only [hen, hm, Bool.not_true, Bool.false_eq_true, if_false]
              at hc
            exact h2 (input, cached) (by rw [hm]; exact assocGet_mem hc)
        · unfold ValidationEngine.get_cached_results at hc
          simp [hen] at hc
      simp [ValidationEngine.validate, hc, hcc]
    | none =>
      simp [ValidationEngine.validate, hc, h1]
  rw [hsum]
  refine ⟨rfl, rfl, rfl, rfl, rfl⟩

/-- Witness for C10 at the freshly constructed engine and input `"test"`. -/
theorem empty_engine_accepts_witness :
    ((ValidationEngine.new.validate "test").1).valid = true ∧
    ((ValidationEngine.new.validate "test").1).validation_results = [] ∧
    ((ValidationEngine.new.validate "test").1).error = none ∧
    ((ValidationEngine.new.validate "test").1).metadata.rules_checked = 0 ∧
    ((ValidationEngine.new.validate "test").1).metadata.rules_passed = 0 :=
  empty_engine_accepts ValidationEngine.new "test" rfl
    (by intro p hp; simp [ValidationEngine.new] at hp)

/-! ### C6: the choice-validator scenario -/

/-- C6 counterexample: with `choices = ["red","green","blue"]` and
`min_choices = max_choices = 1` (the `ChoiceValidator::new` defaults,
case-insensitive), the input `"red,green"` does fail, but `parse_input`
treats the whole trimmed input as one candidate choice when
`max_choices == 1`, so the message is the invalid-choice message and not
`"At most 1 choice(s) allowed"` as the claim states. -/
theorem choice_scenario_counterexample :
    ((ChoiceValidator.new ["red", "green", "blue"]).validate
      "red,green").passed = false ∧
    ((ChoiceValidator.new ["red", "green", "blue"]).validate
        "red,green").message ≠ some "At most 1 choice(s) allowed" := by
  decide

/-- C6 amended: `validate "red"` passes, `validate "RED"` passes in the
(default) case-insensitive mode, and `validate "red,green"` fails — with the
message `"Invalid choice(s): red,green. Valid options: red, green, blue"`,
because a `max_choices = 1` validator parses the entire input as a single
candidate choice rather than reporting the count bound. -/
theorem choice_scenario_amended :
    ((ChoiceValidator.new ["red", "green", "blue"]).validate "red").passed =
      true ∧
    ((ChoiceValidator.new ["red", "green", "blue"]).validate "RED").passed =
      true ∧
    ((ChoiceValidator.new ["red", "green", "blue"]).validate
      "red,green").passed = false ∧
    ((ChoiceValidator.new ["red", "green", "blue"]).validate
        "red,green").message =
      some "Invalid choice(s): red,green. Valid options: red, green, blue" := by
  decide

/-! ### C8: menu navigation clamping -/

/-- Every key event leaves the choice list unchanged and keeps the
highlighted index in bounds. -/
theorem handle_key_event_preserves_bounds (m : ChoiceMenu) (k : MenuKey)
    (h : m.current_index < m.choices.length) :
    (m.handle_key_event k).1.choices = m.choices ∧
    (m.handle_key_event k).1.current_index < m.choices.length := by
  cases k with
  | up =>
    by_cases h0 : 0 < m.current_index <;>
      simp [ChoiceMenu.handle_key_event, h0]
    · exact lt_of_le_of_lt (Nat.sub_le _ _) h
    · exact h
  | down =>
    by_cases h0 : m.current_index < m.choices.length - 1 <;>
      simp [ChoiceMenu.handle_key_event, h0]
    · exact Nat.add_lt_of_lt_sub h0
    · exact h
  | enter =>
    by_cases hm : m.allow_multiple <;>
      simp [ChoiceMenu.handle_key_event, hm] <;> exact h
  | space =>
    by_cases hm : m.allow_multiple <;>
      simp [ChoiceMenu.handle_key_event, hm] <;> exact h
  | ctrlC => exact ⟨rfl, h⟩
  | ctrlD => exact ⟨rfl, h⟩
  | other => exact ⟨rfl, h⟩

/-- C8 counterexample: in a two-entry menu with the highlight on entry 0, a
single Down event moves the highlight to index 1, which is *not* inside the
half-open range `[0, len-1) = [0, 1)` the claim names (the code clamps to
the inclusive `[0, len-1]`). -/
theorem menu_down_counterexample :
    ((demoMenu false 1 1 0).handle_key_event MenuKey.down).1.current_index =
      1 ∧
    ¬(((demoMenu false 1 1 0).handle_key_event
        MenuKey.down).1.current_index <
      (demoMenu false 1 1 0).choices.length - 1) := by
  decide

/-- C8 amended: Up moves the highlight by −1 and Down by +1, clamped to the
inclusive range `[0, len-1]` (equivalently `[0, len)`): an Up at index 0 and
a Down at index `len-1` leave the index unchanged, and over every sequence
of key events on a non-empty choice list the index stays below `len`. -/
theorem menu_navigation_clamped (m : ChoiceMenu)
    (hidx : m.current_index < m.choices.length) :
    (m.handle_key_event MenuKey.up).1.current_index = m.current_index - 1 ∧
    (m.handle_key_event MenuKey.down).1.current_index =
      min (m.current_index + 1) (m.choices.length - 1) ∧
    (m.current_index = 0 →
      (m.handle_key_event MenuKey.up).1.current_index = m.current_index) ∧
    (m.current_index = m.choices.length - 1 →
      (m.handle_key_event MenuKey.down).1.current_index = m.current_index) ∧
    ∀ ks : List MenuKey,
      (ks.foldl (fun s k => (s.handle_key_event k).1) m).current_index <
        m.choices.length := by
  refine ⟨?_, ?_, ?_, ?_, ?_⟩
  · by_cases h0 : 0 < m.current_index
    · simp [ChoiceMenu.handle_key_event, h0]
    · have : m.current_index = 0 := Nat.eq_zero_of_not_pos h0
      simp [ChoiceMenu.handle_key_event, h0, this]
  · by_cases h0 : m.current_index < m.choices.length - 1
    · simp [ChoiceMenu.handle_key_event, h0]
      omega
    · simp [ChoiceMenu.handle_key_event, h0]
      omega
  · intro h0
    simp [ChoiceMenu.handle_key_event, h0]
  · intro h0
    have : ¬(m.current_index < m.choices.length - 1) := by omega
    simp [ChoiceMenu.handle_key_event, this]
  · intro ks
    induction ks generalizing m with
    | nil => exact hidx
    | cons k rest ih =>
      have hp := handle_key_event_preserves_bounds m k hidx
      have := ih (m.handle_key_event k).1 (hp.1 ▸ hp.2)
      simpa [hp.1] using this

/-- Witness for C8's amended theorem at a concrete two-entry menu with the
highlight on index 1 (the upper boundary). -/
theorem menu_navigation_clamped_witness :
    ((demoMenu false 1 1 1).handle_key_event MenuKey.up).1.current_index =
      (demoMenu false 1 1 1).current_index - 1 ∧
    ((demoMenu false 1 1 1).handle_key_event MenuKey.down).1.current_index =
      min ((demoMenu false 1 1 1).current_index + 1)
        ((demoMenu false 1 1 1).choices.length - 1) ∧
    ((demoMenu false 1 1 1).current_index = 0 →
      ((demoMenu false 1 1 1).handle_key_event MenuKey.up).1.current_index =
        (demoMenu false 1 1 1).current_index) ∧
    ((demoMenu false 1 1 1).current_index =
        (demoMenu false 1 1 1).choices.length - 1 →
      ((demoMenu false 1 1 1).handle_key_event
        MenuKey.down).1.current_index = (demoMenu false 1 1 1).current_index) ∧
    ∀ ks : List MenuKey,
      (ks.foldl (fun s k => (s.handle_key_event k).1)
        (demoMenu false 1 1 1)).current_index <
        (demoMenu false 1 1 1).choices.length :=
  menu_navigation_clamped (demoMenu false 1 1 1) (by decide)

/-! ### C7: choice-menu submit semantics -/

theorem countP_id_replicate_false (n : Nat) :
    (List.replicate n false).countP (fun b => b) = 0 := by
  induction n with
  | zero => rfl
  | succ n ih => simp [List.replicate_succ, List.countP_cons, ih]

theorem countP_id_replicate_set (n i : Nat) (h : i < n) :
    ((List.replicate n false).set i true).countP (fun b => b) = 1 := by
  induction n generalizing i with
  | zero => omega
  | succ n ih =>
    cases i with
    | zero =>
      simp [List.replicate_succ, List.countP_cons, countP_id_replicate_false]
    | succ i =>
      have := ih i (by omega)
      simpa [List.replicate_succ, List.countP_cons] using this

theorem zip_filter_replicate_false (cs : List String) :
    ((cs.zip (List.replicate cs.length false)).filter
      (fun p => p.2)).map (fun p => p.1) = [] := by
  induction cs with
  | nil => rfl
  | cons c rest ih => simpa [List.replicate_succ] using ih

theorem zip_filter_single (cs : List String) (i : Nat) (h : i < cs.length) :
    ((cs.zip ((List.replicate cs.length false).set i true)).filter
      (fun p => p.2)).map (fun p => p.1) = [cs.getD i ""] := by
  induction cs generalizing i with
  | nil => simp at h
  | cons c rest ih =>
    cases i with
    | zero =>
      simp [List.replicate_succ, zip_filter_replicate_false]
    | succ i =>
      have := ih i (by simpa using h)
      simpa [List.replicate_succ] using this

/-- `handle_key_event` never changes the configuration fields of the menu. -/
theorem handle_key_event_preserves_config (m : ChoiceMenu) (k : MenuKey) :
    (m.handle_key_event k).1.min_choices = m.min_choices ∧
    (m.handle_key_event k).1.max_choices = m.max_choices ∧
    (m.handle_key_event k).1.allow_multiple = m.allow_multiple ∧
    (m.handle_key_event k).1.choices = m.choices := by
  cases k <;> unfold ChoiceMenu.handle_key_event <;> dsimp only <;>
    (first
      | exact ⟨rfl, rfl, rfl, rfl⟩
      | (split <;> exact ⟨rfl, rfl, rfl, rfl⟩))

/-- `stepShow` on a key whose action is `Submit`. -/
theorem stepShow_submit (m : ChoiceMenu) (k : MenuKey)
    (h : (m.handle_key_event k).2 = MenuAction.submit) :
    m.stepShow k =
      if (m.handle_key_event k).1.can_submit then
        MenuOutcome.submitted (m.handle_key_event k).1.get_selected_choices
      else
        MenuOutcome.navigating (m.handle_key_event k).1.validate_selections := by
  unfold ChoiceMenu.stepShow
  rw [h]

/-- `stepShow` on a key whose action is `Continue`. -/
theorem stepShow_continue (m : ChoiceMenu) (k : MenuKey)
    (h : (m.handle_key_event k).2 = MenuAction.continueAction) :
    m.stepShow k =
      MenuOutcome.navigating (m.handle_key_event k).1.validate_selections := by
  unfold ChoiceMenu.stepShow
  rw [h]

/-- `stepShow` on a key whose action is `Cancel`. -/
theorem stepShow_cancel (m : ChoiceMenu) (k : MenuKey)
    (h : (m.handle_key_event k).2 = MenuAction.cancel) :
    m.stepShow k = MenuOutcome.cancelled := by
  unfold ChoiceMenu.stepShow
  rw [h]

/-- C7 counterexample: a single-select menu (`allow_multiple = false`) with
`min_choices = 2, max_choices = 1` — constructible, since the CLI accepts
`--min-choices 2 --max-choices 1` and `allow_multiple` is computed as
`max_choices > 1`.  Enter selects the highlighted item but the submit is
*rejected* (`can_submit` also guards the single-select path), so the menu
stays Navigating with the "At least 2 choice(s) required" message — not the
immediate submit the claim states. -/
theorem menu_single_enter_counterexample :
    (demoMenu false 2 1 0).stepShow MenuKey.enter =
      MenuOutcome.navigating
        { choices := ["a", "b"], allow_multiple := false, min_choices := 2,
          max_choices := 1, selected_choices := [true, false],
          current_index := 0,
          validation_error := some "At least 2 choice(s) required" } := by
  decide

/-- C7 amended: Enter in single-select mode clears all selections and
selects only the highlighted item, and submits immediately *provided* the
resulting single selection meets the constraints (`min_choices ≤ 1 ≤
max_choices`, which holds for the default single-select configuration
min = max = 1); in either mode a submit goes through only when the selected
count lies in `[min_choices, max_choices]`, and a rejected submit leaves the
menu Navigating with the corresponding constraint-violation message. -/
theorem menu_enter_and_submit_guard (m : ChoiceMenu)
    (hlen : m.selected_choices.length = m.choices.length)
    (hidx : m.current_index < m.choices.length) :
    (m.allow_multiple = false → m.min_choices ≤ 1 → 1 ≤ m.max_choices →
      m.stepShow MenuKey.enter =
        MenuOutcome.submitted [m.choices.getD m.current_index ""]) ∧
    (∀ k sel, m.stepShow k = MenuOutcome.submitted sel →
      m.min_choices ≤ (m.handle_key_event k).1.selectedCount ∧
      (m.handle_key_event k).1.selectedCount ≤ m.max_choices) ∧
    (∀ k, (m.handle_key_event k).2 = MenuAction.submit →
      (m.handle_key_event k).1.can_submit = false →
      m.stepShow k =
        MenuOutcome.navigating (m.handle_key_event k).1.validate_selections ∧
      ((m.handle_key_event k).1.validate_selections).validation_error =
        some (if (m.handle_key_event k).1.selectedCount < m.min_choices then
            "At least " ++ toString m.min_choices ++ " choice(s) required"
          else
            "At most " ++ toString m.max_choices ++ " choice(s) allowed")) := by
  refine ⟨?_, ?_, ?_⟩
  · intro hmul hmin hmax
    have hpair : m.handle_key_event MenuKey.enter =
        ({ m with selected_choices :=
            ((List.replicate m.selected_choices.length false).set
              m.current_index true) }, MenuAction.submit) := by
      unfold ChoiceMenu.handle_key_event
      rw [hmul]
      simp
    have hcount : (m.handle_key_event MenuKey.enter).1.selectedCount = 1 := by
      rw [hpair]
      exact countP_id_replicate_set _ _ (by omega)
    have hcs : (m.handle_key_event MenuKey.enter).1.can_submit = true := by
      unfold ChoiceMenu.can_submit
      rw [hpair] at hcount ⊢
      simp only [ChoiceMenu.selectedCount] at hcount
      simp [ChoiceMenu.selectedCount, hcount, hmin, hmax]
    have hsel : (m.handle_key_event MenuKey.enter).1.get_selected_choices =
        [m.choices.getD m.current_index ""] := by
      rw [hpair]
      unfold ChoiceMenu.get_selected_choices
      simp only
      rw [hlen]
      exact zip_filter_single m.choices m.current_index hidx
    rw [stepShow_submit m MenuKey.enter (by rw [hpair])]
    rw [hcs]
    simp [hsel]
  · intro k sel h
    cases hact : (m.handle_key_event k).2 with
    | continueAction => rw [stepShow_continue m k hact] at h; exact absurd h (by simp)
    | cancel => rw [stepShow_cancel m k hact] at h; exact absurd h (by simp)
    | submit =>
      rw [stepShow_submit m k hact] at h
      by_cases hcs : (m.handle_key_event k).1.can_submit
      · have := of_decide_eq_true hcs
        obtain ⟨hcfg1, hcfg2, -, -⟩ := handle_key_event_preserves_config m k
        exact ⟨hcfg1 ▸ this.1, hcfg2 ▸ this.2⟩
      · rw [if_neg (by simpa using hcs)] at h
        exact absurd h (by simp)
  · intro k hact hcs
    obtain ⟨hcfg1, hcfg2, -, -⟩ := handle_key_event_preserves_config m k
    constructor
    · rw [stepShow_submit m k hact]
      rw [hcs]
      simp
    · have hnot : ¬(m.min_choices ≤ (m.handle_key_event k).1.selectedCount ∧
          (m.handle_key_event k).1.selectedCount ≤ m.max_choices) := by
        intro hand
        have : (m.handle_key_event k).1.can_submit = true := by
          unfold ChoiceMenu.can_submit
          rw [hcfg1, hcfg2]
          exact decide_eq_true hand
        rw [this] at hcs
        exact absurd hcs (by decide)
      unfold ChoiceMenu.validate_selections
      simp only [hcfg1, hcfg2]
      by_cases hlt : (m.handle_key_event k).1.selectedCount < m.min_choices
      · rw [if_pos hlt, if_pos hlt]
      · have hgt : m.max_choices < (m.handle_key_event k).1.selectedCount := by
          omega
        rw [if_neg hlt, if_pos hgt, if_neg hlt]

/-- Witness for C7's amended theorem at a default single-select two-entry
menu with the highlight on index 1. -/
theorem menu_enter_and_submit_guard_witness :
    ((demoMenu false 1 1 1).allow_multiple = false →
      (demoMenu false 1 1 1).min_choices ≤ 1 →
      1 ≤ (demoMenu false 1 1 1).max_choices →
      (demoMenu false 1 1 1).stepShow MenuKey.enter =
        MenuOutcome.submitted
          [(demoMenu false 1 1 1).choices.getD
            (demoMenu false 1 1 1).current_index ""]) ∧
    (∀ k sel, (demoMenu false 1 1 1).stepShow k = MenuOutcome.submitted sel →
      (demoMenu false 1 1 1).min_choices ≤
        ((demoMenu false 1 1 1).handle_key_event k).1.selectedCount ∧
      ((demoMenu false 1 1 1).handle_key_event k).1.selectedCount ≤
        (demoMenu false 1 1 1).max_choices) ∧
    (∀ k, ((demoMenu false 1 1 1).handle_key_event k).2 =
        MenuAction.submit →
      ((demoMenu false 1 1 1).handle_key_event k).1.can_submit = false →
      (demoMenu false 1 1 1).stepShow k =
        MenuOutcome.navigating
          ((demoMenu false 1 1 1).handle_key_event
            k).1.validate_selections ∧
      (((demoMenu false 1 1 1).handle_key_event
          k).1.validate_selections).validation_error =
        some (if ((demoMenu false 1 1 1).handle_key_event
              k).1.selectedCount < (demoMenu false 1 1 1).min_choices then
            "At least " ++ toString (demoMenu false 1 1 1).min_choices ++
              " choice(s) required"
          else
            "At most " ++ toString (demoMenu false 1 1 1).max_choices ++
              " choice(s) allowed")) :=
  menu_enter_and_submit_guard (demoMenu false 1 1 1) rfl (by decide)

/-! ### C5: partial_validate aggregation -/

theorem partialStep_foldl_fep_some (rs : List PartialValidationResult)
    (x : Nat) (b : Bool) (c : List String) :
    (rs.foldl partialStep (some x, b, c)).1 =
      some ((rs.filterMap (fun r => r.first_error_pos)).foldl min x) := by
  induction rs generalizing x b c with
  | nil => rfl
  | cons r rest ih =>
    cases hp : r.first_error_pos with
    | none =>
      simp only [List.foldl_cons, List.filterMap_cons, hp, partialStep]
      exact ih x _ _
    | some p =>
      simp only [List.foldl_cons, List.filterMap_cons, hp, partialStep]
      exact ih (min x p) _ _

theorem partialStep_foldl_fep_none (rs : List PartialValidationResult)
    (b : Bool) (c : List String) :
    (rs.foldl partialStep (none, b, c)).1 =
      (rs.filterMap (fun r => r.first_error_pos)).min? := by
  induction rs generalizing b c with
  | nil => rfl
  | cons r rest ih =>
    cases hp : r.first_error_pos with
    | none =>
      simp only [List.foldl_cons, List.filterMap_cons, hp, partialStep]
      exact ih _ _
    | some p =>
      simp only [List.foldl_cons, List.filterMap_cons, hp, partialStep]
      rw [partialStep_foldl_fep_some]
      rfl

theorem partialStep_foldl_cont (rs : List PartialValidationResult)
    (a : Option Nat) (b : Bool) (c : List String) :
    (rs.foldl partialStep (a, b, c)).2.1 =
      (b && rs.all (fun r => r.can_continue)) := by
  induction rs generalizing a b c with
  | nil => simp
  | cons r rest ih =>
    have hstep : (partialStep (a, b, c) r).2.1 = (b && r.can_continue) := by
      unfold partialStep
      cases hcc : r.can_continue <;> simp
    simp only [List.foldl_cons, List.all_cons]
    rw [show rest.foldl partialStep (partialStep (a, b, c) r) =
        rest.foldl partialStep ((partialStep (a, b, c) r).1,
          (partialStep (a, b, c) r).2.1, (partialStep (a, b, c) r).2.2) from
      rfl]
    rw [ih, hstep, Bool.and_assoc]

theorem partialStep_foldl_sugg (rs : List PartialValidationResult)
    (a : Option Nat) (b : Bool) (c : List String) :
    (rs.foldl partialStep (a, b, c)).2.2 =
      c ++ rs.filterMap (fun r => r.suggestion) := by
  induction rs generalizing a b c with
  | nil => simp
  | cons r rest ih =>
    cases hs : r.suggestion with
    | none =>
      simp only [List.foldl_cons, List.filterMap_cons, hs, partialStep]
      exact ih _ _ _
    | some s =>
      simp only [List.foldl_cons, List.filterMap_cons, hs, partialStep]
      rw [ih]
      simp

/-- C5: `partial_validate` aggregates the per-validator partial reports: its
`first_error_pos` is the minimum of the reported positions (`none` when no
validator reports one), `can_continue` is the conjunction of the individual
flags — false exactly when at least one validator reports non-continuable —
and `suggestion` joins the individual suggestions with `"; "` in
validator-registration order (`none` exactly when there are none). -/
theorem partial_validate_aggregates (e : ValidationEngine) (input : String)
    (cursor_pos : Nat) :
    (e.partial_validate input cursor_pos).first_error_pos =
      ((e.validators.map (fun v => v.partial_validate input
        cursor_pos)).filterMap (fun r => r.first_error_pos)).min? ∧
    (e.partial_validate input cursor_pos).can_continue =
      (e.validators.map (fun v => v.partial_validate input
        cursor_pos)).all (fun r => r.can_continue) ∧
    ((e.partial_validate input cursor_pos).can_continue = false ↔
      ∃ r ∈ e.validators.map (fun v => v.partial_validate input cursor_pos),
        r.can_continue = false) ∧
    (e.partial_validate input cursor_pos).suggestion =
      (if ((e.validators.map (fun v => v.partial_validate input
            cursor_pos)).filterMap (fun r => r.suggestion)).isEmpty then none
       else some (String.intercalate "; "
        ((e.validators.map (fun v => v.partial_validate input
          cursor_pos)).filterMap (fun r => r.suggestion)))) := by
  have hfep := partialStep_foldl_fep_none
    (e.validators.map (fun v => v.partial_validate input cursor_pos)) true []
  have hcont := partialStep_foldl_cont
    (e.validators.map (fun v => v.partial_validate input cursor_pos)) none
    true []
  have hsugg := partialStep_foldl_sugg
    (e.validators.map (fun v => v.partial_validate input cursor_pos)) none
    true []
  refine ⟨?_, ?_, ?_, ?_⟩
  · unfold ValidationEngine.partial_validate
    exact hfep
  · unfold ValidationEngine.partial_validate
    simpa using hcont
  · unfold ValidationEngine.partial_validate
    simp only []
    rw [show ((e.validators.map (fun v => v.partial_validate input
        cursor_pos)).foldl partialStep (none, true, [])).2.1 =
      (e.validators.map (fun v => v.partial_validate input cursor_pos)).all
        (fun r => r.can_continue) from by simpa using hcont]
    constructor
    · intro hfalse
      by_contra hne
      push_neg at hne
      have hall : (e.validators.map (fun v => v.partial_validate input
          cursor_pos)).all (fun r => r.can_continue) = true :=
        List.all_eq_true.2 (fun r hr => by
          cases hcc : r.can_continue with
          | true => rfl
          | false => exact absurd hcc (hne r hr))
      rw [hall] at hfalse
      exact absurd hfalse (by decide)
    · rintro ⟨r, hr, hcc⟩
      cases hb : (e.validators.map (fun v => v.partial_validate input
          cursor_pos)).all (fun r => r.can_continue) with
      | false => rfl
      | true => exact absurd (List.all_eq_true.1 hb r hr) (by simp [hcc])
  · unfold ValidationEngine.partial_validate
    simp only []
    rw [show ((e.validators.map (fun v => v.partial_validate input
        cursor_pos)).foldl partialStep (none, true, [])).2.2 =
      (e.validators.map (fun v => v.partial_validate input
        cursor_pos)).filterMap (fun r => r.suggestion) from by
      simpa using hsugg]

/-! ### C1: summary construction -/

theorem perm_all_eq {α : Type} {l1 l2 : List α} (h : l1.Perm l2)
    (p : α → Bool) : l1.all p = l2.all p := by
  cases hb1 : l1.all p <;> cases hb2 : l2.all p <;> try rfl
  · exfalso
    have : l1.all p = true :=
      List.all_eq_true.2 (fun x hx =>
        List.all_eq_true.1 hb2 x (h.mem_iff.1 hx))
    rw [hb1] at this
    exact absurd this (by decide)
  · exfalso
    have : l2.all p = true :=
      List.all_eq_true.2 (fun x hx =>
        List.all_eq_true.1 hb1 x (h.mem_iff.2 hx))
    rw [hb2] at this
    exact absurd this (by decide)

theorem min_by_priority_foldl_keep (rest : List ValidationResult)
    (m : ValidationResult)
    (h : ∀ r ∈ rest, ¬(r.priority.toNat < m.priority.toNat)) :
    rest.foldl
      (fun acc r =>
        match acc with
        | none => some r
        | some m =>
          if r.priority.toNat < m.priority.toNat then some r else some m)
      (some m) = some m := by
  induction rest with
  | nil => rfl
  | cons r rest ih =>
    simp only [List.foldl_cons]
    rw [if_neg (h r (List.mem_cons_self _ _))]
    exact ih (fun x hx => h x (List.mem_cons_of_mem r hx))

/-- On a list whose priorities are non-decreasing, the Rust
`min_by_key(priority)` fold returns the first element. -/
theorem min_by_priority_sorted (l : List ValidationResult)
    (hs : List.Sorted (fun a b : ValidationResult =>
      a.priority.toNat ≤ b.priority.toNat) l) :
    min_by_priority l = l.head? := by
  cases l with
  | nil => rfl
  | cons a rest =>
    unfold min_by_priority
    simp only [List.foldl_cons, List.head?_cons]
    exact min_by_priority_foldl_keep rest a
      (fun r hr => Nat.not_lt.2 ((List.sorted_cons.1 hs).1 r hr))

/-- C1 counterexample: built from the single failing result with no message,
the summary has `valid = false` yet `error = none` (the source takes the
minimal failing result's message with `and_then`), so the claimed
"`error` is `None` exactly when all results passed" fails. -/
theorem summary_error_counterexample :
    (ValidationSummary.new "x" [noMessageFailure]).valid = false ∧
    (ValidationSummary.new "x" [noMessageFailure]).error = none := by
  decide

/-- C1 amended: the summary's `validation_results` are the given results
sorted by (priority ascending, rule_name ascending); `valid` is the
conjunction of all `passed` flags; `error` is the (optional) message of the
first failing result in that sorted order — the failing result with the
numerically lowest priority, ties broken by rule_name — and hence `error =
none` iff all results passed *or* that minimal failing result itself
carries no message; when every failing result carries a message (as all
results produced by the repo's constructors do), `error = none` exactly
when all results passed. -/
theorem summary_new_spec (value : String) (results : List ValidationResult) :
    List.Sorted resultOrder
      (ValidationSummary.new value results).validation_results ∧
    (ValidationSummary.new value results).validation_results.Perm results ∧
    (ValidationSummary.new value results).valid =
      results.all (fun r => r.passed) ∧
    (ValidationSummary.new value results).error =
      (((ValidationSummary.new value results).validation_results.filter
        (fun r => !r.passed)).head?.bind (fun r => r.message)) ∧
    ((∀ r ∈ results, r.passed = false → r.message.isSome = true) →
      ((ValidationSummary.new value results).error = none ↔
        (ValidationSummary.new value results).valid = true)) := by
  have hres : (ValidationSummary.new value results).validation_results =
      sortResults results := rfl
  have hsorted : List.Sorted resultOrder (sortResults results) :=
    List.sorted_insertionSort resultOrder results
  have hperm : (sortResults results).Perm results :=
    List.perm_insertionSort resultOrder results
  have hvalid : (ValidationSummary.new value results).valid =
      (sortResults results).all (fun r => r.passed) := rfl
  have herror : (ValidationSummary.new value results).error =
      (((sortResults results).filter (fun r => !r.passed)).head?.bind
        (fun r => r.message)) := by
    show (if (sortResults results).all (fun r => r.passed) then none
      else (min_by_priority ((sortResults results).filter
        (fun r => !r.passed))).bind (fun r => r.message)) = _
    cases hv : (sortResults results).all (fun r => r.passed) with
    | true =>
      have hnil : (sortResults results).filter (fun r => !r.passed) = [] := by
        rw [List.filter_eq_nil_iff]
        intro a ha
        simp [List.all_eq_true.1 hv a ha]
      simp [hnil]
    | false =>
      have hfs : List.Sorted (fun a b : ValidationResult =>
          a.priority.toNat ≤ b.priority.toNat)
          ((sortResults results).filter (fun r => !r.passed)) := by
        have := hsorted.filter (fun r => !r.passed)
        exact this.imp (fun hab => by
          rcases hab with h | ⟨h, -⟩
          · exact Nat.le_of_lt h
          · exact Nat.le_of_eq h)
      simp only [Bool.false_eq_true, if_false]
      rw [min_by_priority_sorted _ hfs]
  refine ⟨hres ▸ hsorted, hres ▸ hperm, ?_, ?_, ?_⟩
  · rw [hvalid]
    exact perm_all_eq hperm _
  · rw [herror, hres]
  · intro hmsg
    constructor
    · intro herr
      cases hv : (ValidationSummary.new value results).valid with
      | true => rfl
      | false =>
        exfalso
        have hnotall : (sortResults results).all (fun r => r.passed) =
            false := by rw [← hvalid]; exact hv
        have hex : ∃ r ∈ sortResults results, r.passed = false := by
          by_contra hne
          push_neg at hne
          have : (sortResults results).all (fun r => r.passed) = true :=
            List.all_eq_true.2 (fun r hr => by
              cases hp : r.passed with
              | true => rfl
              | false => exact absurd hp (hne r hr))
          rw [hnotall] at this
          exact absurd this (by decide)
        obtain ⟨r, hr, hp⟩ := hex
        have hmem : r ∈ (sortResults results).filter (fun r => !r.passed) :=
          List.mem_filter.2 ⟨hr, by simp [hp]⟩
        cases hfl : (sortResults results).filter (fun r => !r.passed) with
        | nil => rw [hfl] at hmem; exact absurd hmem (List.not_mem_nil r)
        | cons r0 tl =>
          have hr0mem : r0 ∈ (sortResults results).filter
              (fun r => !r.passed) := by rw [hfl]; exact List.mem_cons_self _ _
          have hr0 := List.mem_filter.1 hr0mem
          have hr0p : r0.passed = false := by
            have := hr0.2
            cases hq : r0.passed with
            | false => rfl
            | true => rw [hq] at this; exact absurd this (by decide)
          have hr0msg : r0.message.isSome = true :=
            hmsg r0 (hperm.mem_iff.1 hr0.1) hr0p
          rw [herror, hfl] at herr
          simp only [List.head?_cons, Option.some_bind] at herr
          rw [herr] at hr0msg
          exact absurd hr0msg (by decide)
    · intro hv
      have : (sortResults results).all (fun r => r.passed) = true := by
        rw [← hvalid]; exact hv
      show (if (sortResults results).all (fun r => r.passed) then none
        else (min_by_priority ((sortResults results).filter
          (fun r => !r.passed))).bind (fun r => r.message)) = none
      rw [this]
      rfl

/-- Witness for C1's amended theorem at a concrete two-result list with one
message-carrying failure. -/
theorem summary_new_spec_witness :
    List.Sorted resultOrder
      (ValidationSummary.new "hi"
        [ValidationResult.failure "min_length" Priority.Medium "too short",
         ValidationResult.success "required"]).validation_results ∧
    (ValidationSummary.new "hi"
      [ValidationResult.failure "min_length" Priority.Medium "too short",
       ValidationResult.success "required"]).validation_results.Perm
      [ValidationResult.failure "min_length" Priority.Medium "too short",
       ValidationResult.success "required"] ∧
    (ValidationSummary.new "hi"
      [ValidationResult.failure "min_length" Priority.Medium "too short",
       ValidationResult.success "required"]).valid =
      ([ValidationResult.failure "min_length" Priority.Medium "too short",
        ValidationResult.success "required"] : List ValidationResult).all
        (fun r => r.passed) ∧
    (ValidationSummary.new "hi"
      [ValidationResult.failure "min_length" Priority.Medium "too short",
       ValidationResult.success "required"]).error =
      (((ValidationSummary.new "hi"
        [ValidationResult.failure "min_length" Priority.Medium "too short",
         ValidationResult.success "required"]).validation_results.filter
          (fun r => !r.passed)).head?.bind (fun r => r.message)) ∧
    ((∀ r ∈ ([ValidationResult.failure "min_length" Priority.Medium
          "too short", ValidationResult.success "required"] :
        List ValidationResult), r.passed = false → r.message.isSome = true) →
      ((ValidationSummary.new "hi"
        [ValidationResult.failure "min_length" Priority.Medium "too short",
         ValidationResult.success "required"]).error = none ↔
        (ValidationSummary.new "hi"
          [ValidationResult.failure "min_length" Priority.Medium "too short",
           ValidationResult.success "required"]).valid = true)) :=
  summary_new_spec "hi"
    [ValidationResult.failure "min_length" Priority.Medium "too short",
     ValidationResult.success "required"]

/-! ### C2: display-error filtering -/

theorem displayLoop_mem {r : ValidationResult} :
    ∀ (l : List ValidationResult) (ch med low len : Nat) (maxE : Option Nat),
      r ∈ displayLoop l ch med low len maxE → r ∈ l := by
  intro l
  induction l with
  | nil =>
    intro ch med low len maxE hr
    simp [displayLoop] at hr
  | cons a rest ih =>
    intro ch med low len maxE hr
    simp only [displayLoop] at hr
    by_cases hinc : (displayStep a.priority ch med low).1
    · rw [if_pos hinc] at hr
      rcases List.mem_cons.1 hr with h | h
      · exact h ▸ List.mem_cons_self _ _
      · cases maxE with
        | some m =>
          dsimp only at h
          by_cases hm : m ≤ len + 1
          · rw [if_pos hm] at h
            exact absurd h (List.not_mem_nil r)
          · rw [if_neg hm] at h
            exact List.mem_cons_of_mem a (ih _ _ _ _ _ h)
        | none =>
          dsimp only at h
          exact List.mem_cons_of_mem a (ih _ _ _ _ _ h)
    · rw [if_neg hinc] at hr
      exact List.mem_cons_of_mem a (ih _ _ _ _ _ hr)

theorem displayLoop_mem_CH {r : ValidationResult}
    (hp : r.priority = Priority.Critical ∨ r.priority = Priority.High) :
    ∀ (l : List ValidationResult) (ch med low len : Nat),
      r ∈ l → r ∈ displayLoop l ch med low len none := by
  intro l
  induction l with
  | nil => intro ch med low len h; exact absurd h (List.not_mem_nil r)
  | cons a rest ih =>
    intro ch med low len h
    rcases List.mem_cons.1 h with h | h
    · subst h
      have hinc : (displayStep r.priority ch med low).1 = true := by
        rcases hp with hp | hp <;> rw [hp] <;> rfl
      simp only [displayLoop]
      rw [if_pos hinc]
      exact List.mem_cons_self _ _
    · by_cases hinc : (displayStep a.priority ch med low).1
      · simp only [displayLoop]
        rw [if_pos hinc]
        exact List.mem_cons_of_mem a (ih _ _ _ _ h)
      · simp only [displayLoop]
        rw [if_neg hinc]
        exact ih _ _ _ _ h

/-- Unfolding of `displayLoop` on a cons cell with no overall cap. -/
theorem displayLoop_cons_none (a : ValidationResult)
    (rest : List ValidationResult) (ch med low len : Nat) :
    displayLoop (a :: rest) ch med low len none =
      if (displayStep a.priority ch med low).1 then
        a :: displayLoop rest (displayStep a.priority ch med low).2.1
          (displayStep a.priority ch med low).2.2.1
          (displayStep a.priority ch med low).2.2.2 (len + 1) none
      else
        displayLoop rest (displayStep a.priority ch med low).2.1
          (displayStep a.priority ch med low).2.2.1
          (displayStep a.priority ch med low).2.2.2 len none := by
  by_cases hinc : (displayStep a.priority ch med low).1 <;>
    simp [displayLoop, hinc]

/-- Unfolding of `displayLoop` on a cons cell whose cap is already reached
once the entry is pushed. -/
theorem displayLoop_cons_break (a : ValidationResult)
    (rest : List ValidationResult) (ch med low len m : Nat)
    (hm : m ≤ len + 1) :
    displayLoop (a :: rest) ch med low len (some m) =
      if (displayStep a.priority ch med low).1 then [a]
      else
        displayLoop rest (displayStep a.priority ch med low).2.1
          (displayStep a.priority ch med low).2.2.1
          (displayStep a.priority ch med low).2.2.2 len (some m) := by
  by_cases hinc : (displayStep a.priority ch med low).1 <;>
    simp [displayLoop, hinc, hm]

/-- Unfolding of `displayLoop` on a cons cell whose cap is not yet reached. -/
theorem displayLoop_cons_go (a : ValidationResult)
    (rest : List ValidationResult) (ch med low len m : Nat)
    (hm : ¬(m ≤ len + 1)) :
    displayLoop (a :: rest) ch med low len (some m) =
      if (displayStep a.priority ch med low).1 then
        a :: displayLoop rest (displayStep a.priority ch med low).2.1
          (displayStep a.priority ch med low).2.2.1
          (displayStep a.priority ch med low).2.2.2 (len + 1) (some m)
      else
        displayLoop rest (displayStep a.priority ch med low).2.1
          (displayStep a.priority ch med low).2.2.1
          (displayStep a.priority ch med low).2.2.2 len (some m) := by
  by_cases hinc : (displayStep a.priority ch med low).1 <;>
    simp [displayLoop, hinc, hm]

theorem displayLoop_countP_medium :
    ∀ (l : List ValidationResult) (ch med low len : Nat) (maxE : Option Nat),
      (displayLoop l ch med low len maxE).countP
        (fun r => decide (r.priority = Priority.Medium)) ≤ 3 - med := by
  intro l
  induction l with
  | nil => intro ch med low len maxE; simp [displayLoop]
  | cons a rest ih =>
    intro ch med low len maxE
    cases hp : a.priority with
    | Critical =>
      cases maxE with
      | none =>
        rw [displayLoop_cons_none, hp]
        have := ih (ch + 1) med low (len + 1) none
        simp [displayStep, List.countP_cons, hp]
        omega
      | some m =>
        by_cases hm : m ≤ len + 1
        · rw [displayLoop_cons_break a rest ch med low len m hm, hp]
          simp [displayStep, List.countP_cons, hp]
        · rw [displayLoop_cons_go a rest ch med low len m hm, hp]
          have := ih (ch + 1) med low (len + 1) (some m)
          simp [displayStep, List.countP_cons, hp]
          omega
    | High =>
      cases maxE with
      | none =>
        rw [displayLoop_cons_none, hp]
        have := ih (ch + 1) med low (len + 1) none
        simp [displayStep, List.countP_cons, hp]
        omega
      | some m =>
        by_cases hm : m ≤ len + 1
        · rw [displayLoop_cons_break a rest ch med low len m hm, hp]
          simp [displayStep, List.countP_cons, hp]
        · rw [displayLoop_cons_go a rest ch med low len m hm, hp]
          have := ih (ch + 1) med low (len + 1) (some m)
          simp [displayStep, List.countP_cons, hp]
          omega
    | Medium =>
      by_cases hm3 : med + 1 ≤ 3
      · cases maxE with
        | none =>
          rw [displayLoop_cons_none, hp]
          have := ih ch (med + 1) low (len + 1) none
          simp [displayStep, hm3, List.countP_cons, hp]
          omega
        | some m =>
          by_cases hm : m ≤ len + 1
          · rw [displayLoop_cons_break a rest ch med low len m hm, hp]
            simp [displayStep, hm3, List.countP_cons, hp]
            omega
          · rw [displayLoop_cons_go a rest ch med low len m hm, hp]
            have := ih ch (med + 1) low (len + 1) (some m)
            simp [displayStep, hm3, List.countP_cons, hp]
            omega
      · cases maxE with
        | none =>
          rw [displayLoop_cons_none, hp]
          have := ih ch (med + 1) low len none
          simp [displayStep, hm3]
          omega
        | some m =>
          by_cases hm : m ≤ len + 1
          · rw [displayLoop_cons_break a rest ch med low len m hm, hp]
            have := ih ch (med + 1) low len (some m)
            simp [displayStep, hm3]
            omega
          · rw [displayLoop_cons_go a rest ch med low len m hm, hp]
            have := ih ch (med + 1) low len (some m)
            simp [displayStep, hm3]
            omega
    | Low =>
      by_cases hcl : ch = 0 ∧ low + 1 ≤ 2
      · obtain ⟨hch, hlow⟩ := hcl
        subst hch
        cases maxE with
        | none =>
          rw [displayLoop_cons_none, hp]
          have := ih 0 med (low + 1) (len + 1) none
          simp [displayStep, hlow, List.countP_cons, hp]
          omega
        | some m =>
          by_cases hm : m ≤ len + 1
          · rw [displayLoop_cons_break a rest 0 med low len m hm, hp]
            simp [displayStep, hlow, List.countP_cons, hp]
          · rw [displayLoop_cons_go a rest 0 med low len m hm, hp]
            have := ih 0 med (low + 1) (len + 1) (some m)
            simp [displayStep, hlow, List.countP_cons, hp]
            omega
      · have hninc : ¬((displayStep Priority.Low ch med low).1 = true) := by
          simpa [displayStep] using hcl
        cases maxE with
        | none =>
          rw [displayLoop_cons_none, hp, if_neg hninc]
          have := ih ch med (low + 1) len none
          simpa [displayStep] using this
        | some m =>
          by_cases hm : m ≤ len + 1
          · rw [displayLoop_cons_break a rest ch med low len m hm, hp,
              if_neg hninc]
            have := ih ch med (low + 1) len (some m)
            simpa [displayStep] using this
          · rw [displayLoop_cons_go a rest ch med low len m hm, hp,
              if_neg hninc]
            have := ih ch med (low + 1) len (some m)
            simpa [displayStep] using this

theorem displayLoop_countP_low :
    ∀ (l : List ValidationResult) (ch med low len : Nat) (maxE : Option Nat),
      (displayLoop l ch med low len maxE).countP
        (fun r => decide (r.priority = Priority.Low)) ≤ 2 - low := by
  intro l
  induction l with
  | nil => intro ch med low len maxE; simp [displayLoop]
  | cons a rest ih =>
    intro ch med low len maxE
    cases hp : a.priority with
    | Critical =>
      cases maxE with
      | none =>
        rw [displayLoop_cons_none, hp]
        have := ih (ch + 1) med low (len + 1) none
        simp [displayStep, List.countP_cons, hp]
        omega
      | some m =>
        by_cases hm : m ≤ len + 1
        · rw [displayLoop_cons_break a rest ch med low len m hm, hp]
          simp [displayStep, List.countP_cons, hp]
        · rw [displayLoop_cons_go a rest ch med low len m hm, hp]
          have := ih (ch + 1) med low (len + 1) (some m)
          simp [displayStep, List.countP_cons, hp]
          omega
    | High =>
      cases maxE with
      | none =>
        rw [displayLoop_cons_none, hp]
        have := ih (ch + 1) med low (len + 1) none
        simp [displayStep, List.countP_cons, hp]
        omega
      | some m =>
        by_cases hm : m ≤ len + 1
        · rw [displayLoop_cons_break a rest ch med low len m hm, hp]
          simp [displayStep, List.countP_cons, hp]
        · rw [displayLoop_cons_go a rest ch med low len m hm, hp]
          have := ih (ch + 1) med low (len + 1) (some m)
          simp [displayStep, List.countP_cons, hp]
          omega
    | Medium =>
      by_cases hm3 : med + 1 ≤ 3
      · cases maxE with
        | none =>
          rw [displayLoop_cons_none, hp]
          have := ih ch (med + 1) low (len + 1) none
          simp [displayStep, hm3, List.countP_cons, hp]
          omega
        | some m =>
          by_cases hm : m ≤ len + 1
          · rw [displayLoop_cons_break a rest ch med low len m hm, hp]
            simp [displayStep, hm3, List.countP_cons, hp]
          · rw [displayLoop_cons_go a rest ch med low len m hm, hp]
            have := ih ch (med + 1) low (len + 1) (some m)
            simp [displayStep, hm3, List.countP_cons, hp]
            omega
      · cases maxE with
        | none =>
          rw [displayLoop_cons_none, hp]
          have := ih ch (med + 1) low len none
          simp [displayStep, hm3]
          omega
        | some m =>
          by_cases hm : m ≤ len + 1
          · rw [displayLoop_cons_break a rest ch med low len m hm, hp]
            have := ih ch (med + 1) low len (some m)
            simp [displayStep, hm3]
            omega
          · rw [displayLoop_cons_go a rest ch med low len m hm, hp]
            have := ih ch (med + 1) low len (some m)
            simp [displayStep, hm3]
            omega
    | Low =>
      by_cases hcl : ch = 0 ∧ low + 1 ≤ 2
      · obtain ⟨hch, hlow⟩ := hcl
        subst hch
        cases maxE with
        | none =>
          rw [displayLoop_cons_none, hp]
          have := ih 0 med (low + 1) (len + 1) none
          simp [displayStep, hlow, List.countP_cons, hp]
          omega
        | some m =>
          by_cases hm : m ≤ len + 1
          · rw [displayLoop_cons_break a rest 0 med low len m hm, hp]
            simp [displayStep, hlow, List.countP_cons, hp]
            omega
          · rw [displayLoop_cons_go a rest 0 med low len m hm, hp]
            have := ih 0 med (low + 1) (len + 1) (some m)
            simp [displayStep, hlow, List.countP_cons, hp]
            omega
      · have hninc : ¬((displayStep Priority.Low ch med low).1 = true) := by
          simpa [displayStep] using hcl
        cases maxE with
        | none =>
          rw [displayLoop_cons_none, hp, if_neg hninc]
          have := ih ch med (low + 1) len none
          simp [displayStep]
          omega
        | some m =>
          by_cases hm : m ≤ len + 1
          · rw [displayLoop_cons_break a rest ch med low len m hm, hp,
              if_neg hninc]
            have := ih ch med (low + 1) len (some m)
            simp [displayStep]
            omega
          · rw [displayLoop_cons_go a rest ch med low len m hm, hp,
              if_neg hninc]
            have := ih ch med (low + 1) len (some m)
            simp [displayStep]
            omega

/-- A priority whose discriminant is at least 3 is `Low`. -/
theorem priority_eq_low_of_ge (p : Priority) (h : 3 ≤ p.toNat) :
    p = Priority.Low := by
  cases p <;> first | rfl | (exfalso; simp [Priority.toNat] at h)

/-- If the display loop emits a `Low` entry then the Critical/High counter
was zero and — on a priority-sorted input — the input holds no Critical or
High failure at all. -/
theorem displayLoop_low_no_CH :
    ∀ (l : List ValidationResult),
      l.Pairwise (fun a b : ValidationResult =>
        a.priority.toNat ≤ b.priority.toNat) →
      ∀ (ch med low len : Nat) (maxE : Option Nat),
        (∃ r ∈ displayLoop l ch med low len maxE,
          r.priority = Priority.Low) →
        ch = 0 ∧ ∀ r ∈ l,
          r.priority ≠ Priority.Critical ∧ r.priority ≠ Priority.High := by
  intro l
  induction l with
  | nil =>
    intro _ ch med low len maxE hex
    obtain ⟨r, hr, -⟩ := hex
    simp [displayLoop] at hr
  | cons a rest ih =>
    intro hpw ch med low len maxE hex
    obtain ⟨hpw1, hpw2⟩ := List.pairwise_cons.1 hpw
    obtain ⟨r, hr, hlow⟩ := hex
    cases hp : a.priority with
    | Critical =>
      exfalso
      have hinc : (displayStep a.priority ch med low).1 = true := by
        rw [hp]; rfl
      have hch : (displayStep a.priority ch med low).2.1 = ch + 1 := by
        rw [hp]; rfl
      have hmed : (displayStep a.priority ch med low).2.2.1 = med := by
        rw [hp]; rfl
      have hlw : (displayStep a.priority ch med low).2.2.2 = low := by
        rw [hp]; rfl
      cases maxE with
      | none =>
        rw [displayLoop_cons_none, if_pos hinc, hch, hmed, hlw] at hr
        rcases List.mem_cons.1 hr with h | h
        · rw [h] at hlow; rw [hp] at hlow; exact absurd hlow (by decide)
        · exact Nat.succ_ne_zero ch
            ((ih hpw2 (ch + 1) med low (len + 1) none ⟨r, h, hlow⟩).1)
      | some m =>
        by_cases hm : m ≤ len + 1
        · rw [displayLoop_cons_break a rest ch med low len m hm,
            if_pos hinc] at hr
          rcases List.mem_cons.1 hr with h | h
          · rw [h] at hlow; rw [hp] at hlow; exact absurd hlow (by decide)
          · exact absurd h (List.not_mem_nil r)
        · rw [displayLoop_cons_go a rest ch med low len m hm,
            if_pos hinc, hch, hmed, hlw] at hr
          rcases List.mem_cons.1 hr with h | h
          · rw [h] at hlow; rw [hp] at hlow; exact absurd hlow (by decide)
          · exact Nat.succ_ne_zero ch
              ((ih hpw2 (ch + 1) med low (len + 1) (some m) ⟨r, h, hlow⟩).1)
    | High =>
      exfalso
      have hinc : (displayStep a.priority ch med low).1 = true := by
        rw [hp]; rfl
      have hch : (displayStep a.priority ch med low).2.1 = ch + 1 := by
        rw [hp]; rfl
      have hmed : (displayStep a.priority ch med low).2.2.1 = med := by
        rw [hp]; rfl
      have hlw : (displayStep a.priority ch med low).2.2.2 = low := by
        rw [hp]; rfl
      cases maxE with
      | none =>
        rw [displayLoop_cons_none, if_pos hinc, hch, hmed, hlw] at hr
        rcases List.mem_cons.1 hr with h | h
        · rw [h] at hlow; rw [hp] at hlow; exact absurd hlow (by decide)
        · exact Nat.succ_ne_zero ch
            ((ih hpw2 (ch + 1) med low (len + 1) none ⟨r, h, hlow⟩).1)
      | some m =>
        by_cases hm : m ≤ len + 1
        · rw [displayLoop_cons_break a rest ch med low len m hm,
            if_pos hinc] at hr
          rcases List.mem_cons.1 hr with h | h
          · rw [h] at hlow; rw [hp] at hlow; exact absurd hlow (by decide)
          · exact absurd h (List.not_mem_nil r)
        · rw [displayLoop_cons_go a rest ch med low len m hm,
            if_pos hinc, hch, hmed, hlw] at hr
          rcases List.mem_cons.1 hr with h | h
          · rw [h] at hlow; rw [hp] at hlow; exact absurd hlow (by decide)
          · exact Nat.succ_ne_zero ch
              ((ih hpw2 (ch + 1) med low (len + 1) (some m) ⟨r, h, hlow⟩).1)
    | Medium =>
      have hch : (displayStep a.priority ch med low).2.1 = ch := by
        rw [hp]; rfl
      have hmed : (displayStep a.priority ch med low).2.2.1 = med + 1 := by
        rw [hp]; rfl
      have hlw : (displayStep a.priority ch med low).2.2.2 = low := by
        rw [hp]; rfl
      have hnotlow : ¬(r = a) := by
        intro h
        rw [h, hp] at hlow
        exact absurd hlow (by decide)
      have htail : ∃ len2 maxE2,
          r ∈ displayLoop rest ch (med + 1) low len2 maxE2 := by
        by_cases hinc : (displayStep a.priority ch med low).1
        · cases maxE with
          | none =>
            rw [displayLoop_cons_none, if_pos hinc, hch, hmed, hlw] at hr
            rcases List.mem_cons.1 hr with h | h
            · exact absurd h hnotlow
            · exact ⟨len + 1, none, h⟩
          | some m =>
            by_cases hm : m ≤ len + 1
            · rw [displayLoop_cons_break a rest ch med low len m hm,
                if_pos hinc] at hr
              rcases List.mem_cons.1 hr with h | h
              · exact absurd h hnotlow
              · exact absurd h (List.not_mem_nil r)
            · rw [displayLoop_cons_go a rest ch med low len m hm,
                if_pos hinc, hch, hmed, hlw] at hr
              rcases List.mem_cons.1 hr with h | h
              · exact absurd h hnotlow
              · exact ⟨len + 1, some m, h⟩
        · cases maxE with
          | none =>
            rw [displayLoop_cons_none, if_neg hinc, hch, hmed, hlw] at hr
            exact ⟨len, none, hr⟩
          | some m =>
            by_cases hm : m ≤ len + 1
            · rw [displayLoop_cons_break a rest ch med low len m hm,
                if_neg hinc, hch, hmed, hlw] at hr
              exact ⟨len, some m, hr⟩
            · rw [displayLoop_cons_go a rest ch med low len m hm,
                if_neg hinc, hch, hmed, hlw] at hr
              exact ⟨len, some m, hr⟩
      obtain ⟨len2, maxE2, htl⟩ := htail
      obtain ⟨hch0, hfree⟩ := ih hpw2 ch (med + 1) low len2 maxE2 ⟨r, htl, hlow⟩
      refine ⟨hch0, ?_⟩
      intro x hx
      rcases List.mem_cons.1 hx with h | h
      · rw [h, hp]; exact ⟨by decide, by decide⟩
      · exact hfree x h
    | Low =>
      by_cases hcl : ch = 0 ∧ low + 1 ≤ 2
      · refine ⟨hcl.1, ?_⟩
        intro x hx
        rcases List.mem_cons.1 hx with h | h
        · rw [h, hp]; exact ⟨by decide, by decide⟩
        · have hge : 3 ≤ x.priority.toNat := by
            have := hpw1 x h
            rw [hp] at this
            exact this
          rw [priority_eq_low_of_ge x.priority hge]
          exact ⟨by decide, by decide⟩
      · have hinc : ¬((displayStep a.priority ch med low).1 = true) := by
          rw [hp]; simpa [displayStep] using hcl
        have hch : (displayStep a.priority ch med low).2.1 = ch := by
          rw [hp]; rfl
        have hmed : (displayStep a.priority ch med low).2.2.1 = med := by
          rw [hp]; rfl
        have hlw : (displayStep a.priority ch med low).2.2.2 = low + 1 := by
          rw [hp]; rfl
        have htail : ∃ maxE2,
            r ∈ displayLoop rest ch med (low + 1) len maxE2 := by
          cases maxE with
          | none =>
            rw [displayLoop_cons_none, if_neg hinc, hch, hmed, hlw] at hr
            exact ⟨none, hr⟩
          | some m =>
            by_cases hm : m ≤ len + 1
            · rw [displayLoop_cons_break a rest ch med low len m hm,
                if_neg hinc, hch, hmed, hlw] at hr
              exact ⟨some m, hr⟩
            · rw [displayLoop_cons_go a rest ch med low len m hm,
                if_neg hinc, hch, hmed, hlw] at hr
              exact ⟨some m, hr⟩
        obtain ⟨maxE2, htl⟩ := htail
        obtain ⟨hch0, hfree⟩ := ih hpw2 ch med (low + 1) len maxE2
          ⟨r, htl, hlow⟩
        refine ⟨hch0, ?_⟩
        intro x hx
        rcases List.mem_cons.1 hx with h | h
        · rw [h, hp]; exact ⟨by decide, by decide⟩
        · exact hfree x h

/-- With a not-yet-reached cap, the loop computes the `m - len`-prefix of
its uncapped run: the cap is checked only after a push. -/
theorem displayLoop_some_eq_take :
    ∀ (l : List ValidationResult) (ch med low len m : Nat), len < m →
      displayLoop l ch med low len (some m) =
        (displayLoop l ch med low len none).take (m - len) := by
  intro l
  induction l with
  | nil => intro ch med low len m h; simp [displayLoop]
  | cons a rest ih =>
    intro ch med low len m h
    by_cases hinc : (displayStep a.priority ch med low).1
    · by_cases hm : m ≤ len + 1
      · rw [displayLoop_cons_break a rest ch med low len m hm, if_pos hinc,
          displayLoop_cons_none, if_pos hinc]
        have h1 : m - len = 1 := by omega
        rw [h1]
        rfl
      · rw [displayLoop_cons_go a rest ch med low len m hm, if_pos hinc,
          displayLoop_cons_none, if_pos hinc,
          ih _ _ _ (len + 1) m (by omega)]
        have h2 : m - len = (m - (len + 1)) + 1 := by omega
        rw [h2]
        rfl
    · by_cases hm : m ≤ len + 1
      · rw [displayLoop_cons_break a rest ch med low len m hm, if_neg hinc,
          displayLoop_cons_none, if_neg hinc]
        exact ih _ _ _ len m h
      · rw [displayLoop_cons_go a rest ch med low len m hm, if_neg hinc,
          displayLoop_cons_none, if_neg hinc]
        exact ih _ _ _ len m h

/-- With cap 0 the loop still pushes one entry before breaking: it equals
the 1-prefix of the uncapped run. -/
theorem displayLoop_some_zero :
    ∀ (l : List ValidationResult) (ch med low len : Nat),
      displayLoop l ch med low len (some 0) =
        (displayLoop l ch med low len none).take 1 := by
  intro l
  induction l with
  | nil => intro ch med low len; simp [displayLoop]
  | cons a rest ih =>
    intro ch med low len
    by_cases hinc : (displayStep a.priority ch med low).1
    · rw [displayLoop_cons_break a rest ch med low len 0 (by omega),
        if_pos hinc, displayLoop_cons_none, if_pos hinc]
      rfl
    · rw [displayLoop_cons_break a rest ch med low len 0 (by omega),
        if_neg hinc, displayLoop_cons_none, if_neg hinc]
      exact ih _ _ _ _

/-- The loop's inclusion decisions depend only on the priorities, so two
inputs with the same priority sequence produce displays of equal length. -/
theorem displayLoop_length_eq_of_map_priority :
    ∀ (l1 l2 : List ValidationResult),
      l1.map (fun r => r.priority) = l2.map (fun r => r.priority) →
      ∀ (ch med low len : Nat) (maxE : Option Nat),
        (displayLoop l1 ch med low len maxE).length =
          (displayLoop l2 ch med low len maxE).length := by
  intro l1
  induction l1 with
  | nil =>
    intro l2 h ch med low len maxE
    cases l2 with
    | nil => rfl
    | cons b rest2 => simp at h
  | cons a rest ih =>
    intro l2 h ch med low len maxE
    cases l2 with
    | nil => simp at h
    | cons b rest2 =>
      simp only [List.map_cons, List.cons.injEq] at h
      obtain ⟨hab, hrest⟩ := h
      by_cases hinc : (displayStep a.priority ch med low).1
      · have hincb : (displayStep b.priority ch med low).1 = true := by
          rw [← hab]; exact hinc
        cases maxE with
        | none =>
          rw [displayLoop_cons_none, if_pos hinc, displayLoop_cons_none,
            if_pos hincb, hab]
          simp only [List.length_cons]
          exact congrArg Nat.succ (ih rest2 hrest _ _ _ _ _)
        | some m =>
          by_cases hm : m ≤ len + 1
          · rw [displayLoop_cons_break a rest ch med low len m hm,
              if_pos hinc, displayLoop_cons_break b rest2 ch med low len m hm,
              if_pos hincb]
            rfl
          · rw [displayLoop_cons_go a rest ch med low len m hm,
              if_pos hinc, displayLoop_cons_go b rest2 ch med low len m hm,
              if_pos hincb, hab]
            simp only [List.length_cons]
            exact congrArg Nat.succ (ih rest2 hrest _ _ _ _ _)
      · have hincb : ¬((displayStep b.priority ch med low).1 = true) := by
          rw [← hab]; exact hinc
        cases maxE with
        | none =>
          rw [displayLoop_cons_none, if_neg hinc, displayLoop_cons_none,
            if_neg hincb, hab]
          exact ih rest2 hrest _ _ _ _ _
        | some m =>
          by_cases hm : m ≤ len + 1
          · rw [displayLoop_cons_break a rest ch med low len m hm,
              if_neg hinc, displayLoop_cons_break b rest2 ch med low len m hm,
              if_neg hincb, hab]
            exact ih rest2 hrest _ _ _ _ _
          · rw [displayLoop_cons_go a rest ch med low len m hm,
              if_neg hinc, displayLoop_cons_go b rest2 ch med low len m hm,
              if_neg hincb, hab]
            exact ih rest2 hrest _ _ _ _ _

/-- The summaries produced by `validate` carry their results sorted by the
(priority, rule_name) comparator. -/
theorem validate_results_sorted (e : ValidationEngine) (input : String) :
    List.Sorted resultOrder (e.validate input).1.validation_results := by
  cases hc : e.get_cached_results input with
  | some cached =>
    have h1 : (e.validate input).1 = ValidationSummary.new input cached := by
      simp [ValidationEngine.validate, hc]
    rw [h1]
    exact List.sorted_insertionSort resultOrder cached
  | none =>
    have h1 : (e.validate input).1 = ValidationSummary.new input
        (e.validators.map (fun v => v.validate input)) := by
      simp [ValidationEngine.validate, hc]
    rw [h1]
    exact List.sorted_insertionSort resultOrder _

/-- `get_display_errors` runs the display loop over the (already sorted)
failing results of `validate`: the re-sort inside `filter_display_errors`
is the identity there. -/
theorem get_display_errors_eq (e : ValidationEngine) (input : String)
    (maxE : Option Nat) :
    (e.get_display_errors input maxE).1 =
      displayLoop
        ((e.validate input).1.validation_results.filter (fun r => !r.passed))
        0 0 0 0 maxE := by
  have hs : sortResults ((e.validate input).1.validation_results) =
      (e.validate input).1.validation_results :=
    List.Sorted.insertionSort_eq (validate_results_sorted e input)
  unfold ValidationEngine.get_display_errors filter_display_errors
  rw [hs]

/-- The failing results of a summary are sorted by priority. -/
theorem validate_failures_pairwise (e : ValidationEngine) (input : String) :
    ((e.validate input).1.validation_results.filter
      (fun r => !r.passed)).Pairwise
        (fun a b : ValidationResult =>
          a.priority.toNat ≤ b.priority.toNat) := by
  have h1 := (validate_results_sorted e input).filter (fun r => !r.passed)
  exact h1.imp (fun hab => by
    rcases hab with h | ⟨h, -⟩
    · exact Nat.le_of_lt h
    · exact Nat.le_of_eq h)

/-- C2 counterexample: with `max_errors = some 0` the display list still
holds one entry (the cap is checked only after a push), so the claimed
truncation "at `max_errors`" fails at 0. -/
theorem display_cap_zero_counterexample :
    (scenarioEngine.get_display_errors "x" (some 0)).1.length = 1 ∧
    ¬((scenarioEngine.get_display_errors "x" (some 0)).1.length ≤ 0) := by
  constructor
  · decide
  · decide

/-- C2 amended: `get_display_errors` returns only failing results; with no
cap every Critical/High failure is present, at most 3 Medium and at most 2
Low entries are shown, and a Low entry is shown only when the input has no
Critical/High failure at all; a given `max_errors = m` truncates the
uncapped list to `max m 1` entries (not `m`: the cap is only checked after
a push, so `m = 0` still yields one entry when any failure is displayable).
For failures at priorities {Critical×1, Medium×5, Low×5} exactly 4 entries
are returned when `max_errors` is absent or ≥ 4. -/
theorem get_display_errors_spec (e : ValidationEngine) (input : String) :
    (∀ r ∈ (e.get_display_errors input none).1, r.passed = false) ∧
    (∀ r ∈ (e.validate input).1.validation_results.filter
        (fun r => !r.passed),
      (r.priority = Priority.Critical ∨ r.priority = Priority.High) →
      r ∈ (e.get_display_errors input none).1) ∧
    ((e.get_display_errors input none).1.countP
      (fun r => decide (r.priority = Priority.Medium)) ≤ 3) ∧
    ((e.get_display_errors input none).1.countP
      (fun r => decide (r.priority = Priority.Low)) ≤ 2) ∧
    ((∃ r ∈ (e.get_display_errors input none).1,
        r.priority = Priority.Low) →
      ∀ r ∈ (e.validate input).1.validation_results.filter
          (fun r => !r.passed),
        r.priority ≠ Priority.Critical ∧ r.priority ≠ Priority.High) ∧
    (∀ mo : Nat, (e.get_display_errors input (some mo)).1 =
      (e.get_display_errors input none).1.take (max mo 1)) ∧
    ((((e.validate input).1.validation_results.filter
          (fun r => !r.passed)).map (fun r => r.priority)).Perm
        ([Priority.Critical] ++ List.replicate 5 Priority.Medium ++
          List.replicate 5 Priority.Low) →
      (e.get_display_errors input none).1.length = 4 ∧
      ∀ mo : Nat, 4 ≤ mo →
        (e.get_display_errors input (some mo)).1.length = 4) := by
  have hF := get_display_errors_eq e input none
  refine ⟨?_, ?_, ?_, ?_, ?_, ?_, ?_⟩
  · intro r hr
    rw [hF] at hr
    have := displayLoop_mem _ _ _ _ _ _ hr
    have := List.mem_filter.1 this
    simpa using this.2
  · intro r hr hp
    rw [hF]
    exact displayLoop_mem_CH hp _ _ _ _ _ hr
  · rw [hF]
    simpa using displayLoop_countP_medium _ 0 0 0 0 none
  · rw [hF]
    simpa using displayLoop_countP_low _ 0 0 0 0 none
  · intro hex
    rw [hF] at hex
    exact (displayLoop_low_no_CH _ (validate_failures_pairwise e input)
      0 0 0 0 none hex).2
  · intro mo
    rw [get_display_errors_eq e input (some mo), hF]
    cases mo with
    | zero => exact displayLoop_some_zero _ 0 0 0 0
    | succ k =>
      rw [displayLoop_some_eq_take _ 0 0 0 0 (k + 1) (by omega)]
      congr 1
      omega
  · intro hperm
    have hmapeq : (((e.validate input).1.validation_results.filter
          (fun r => !r.passed)).map (fun r => r.priority)) =
        ([Priority.Critical] ++ List.replicate 5 Priority.Medium ++
          List.replicate 5 Priority.Low) := by
      have hs1 : List.Sorted (fun p q : Priority => p.toNat ≤ q.toNat)
          (((e.validate input).1.validation_results.filter
            (fun r => !r.passed)).map (fun r => r.priority)) :=
        List.Pairwise.map _ (fun a b hab => hab)
          (validate_failures_pairwise e input)
      have hs2 : List.Sorted (fun p q : Priority => p.toNat ≤ q.toNat)
          ([Priority.Critical] ++ List.replicate 5 Priority.Medium ++
            List.replicate 5 Priority.Low) := by decide
      exact List.eq_of_perm_of_sorted hperm hs1 hs2
    have hlen4 : (e.get_display_errors input none).1.length = 4 := by
      rw [hF]
      rw [displayLoop_length_eq_of_map_priority
        ((e.validate input).1.validation_results.filter (fun r => !r.passed))
        (([Priority.Critical] ++ List.replicate 5 Priority.Medium ++
          List.replicate 5 Priority.Low).map (fun p =>
            ({ rule_name := "", passed := false, priority := p,
               message := none, metadata := [] } : ValidationResult)))
        (by rw [hmapeq]; decide) 0 0 0 0 none]
      decide
    refine ⟨hlen4, ?_⟩
    intro mo hmo
    have htake : (e.get_display_errors input (some mo)).1 =
        (e.get_display_errors input none).1.take (max mo 1) := by
      rw [get_display_errors_eq e input (some mo), hF]
      cases mo with
      | zero => exact displayLoop_some_zero _ 0 0 0 0
      | succ k =>
        rw [displayLoop_some_eq_take _ 0 0 0 0 (k + 1) (by omega)]
        congr 1
        omega
    rw [htake, List.length_take, hlen4]
    omega

/-- Witness for C2's amended theorem at the eleven-validator scenario
engine: the display list without a cap (and with cap 10) has exactly 4
entries. -/
theorem get_display_errors_spec_witness :
    (scenarioEngine.get_display_errors "x" none).1.length = 4 ∧
    (scenarioEngine.get_display_errors "x" (some 10)).1.length = 4 := by
  have h := (get_display_errors_spec scenarioEngine "x").2.2.2.2.2.2
    (by
      have hm : ((scenarioEngine.validate "x").1.validation_results.filter
            (fun r => !r.passed)).map (fun r => r.priority) =
          ([Priority.Critical] ++ List.replicate 5 Priority.Medium ++
            List.replicate 5 Priority.Low) := by decide
      rw [hm])
  exact ⟨h.1, h.2 10 (by omega)⟩

end Askr
